import Mathlib

/-!
Shallow embedding of the event-driven backtesting core of the
`automated-trader` repository: `risk/manager.py` (Trade, RiskManager),
`risk/position_sizing.py` (PositionSizer), `backtesting/engine.py`
(BacktestEngine) and `strategies/base.py` / `strategies/trend_ema.py`
(signal generation and data validation).

Python floats are modelled as rationals (ℚ), Python ints as ℤ/ℕ,
`None` as `Option`, raised exceptions as `Except`, and object identity
of `Trade` instances as an explicit `id : ℕ` handed out by the
`RiskManager` at creation time (`trade in self.positions` and
`self.positions.remove(trade)` compare by object identity in the
source).  Timestamps are bar indices (ℕ); the calendar day of a bar is
a separate `day : ℤ` field used for the daily-rollover test
`dates[i+1].date() != date.date()`.
-/

/-- Python `int(x)` truncation toward zero on a float, here on ℚ. -/
def pytrunc (x : ℚ) : ℤ :=
  if x < 0 then ⌈x⌉ else ⌊x⌋

/-- `np.clip(x, lo, hi)`. -/
def npclip (x lo hi : ℚ) : ℚ :=
  min (max x lo) hi

/-! ## Trade (`risk/manager.py`, class `Trade`) -/

structure Trade where
  id : ℕ
  entry_date : ℕ
  entry_price : ℚ
  shares : ℤ
  signal : ℤ
  stop_price : ℚ
  trailing_stop : ℚ
  stop_mult : ℚ
  trailing_mult : ℚ
  initial_stop_price : ℚ
  initial_risk_per_share : ℚ
  current_r_multiple : ℚ
  is_pyramid : Bool
  exit_date : Option ℕ
  exit_price : Option ℚ
  exit_reason : String
  strategy : String
  bars_in_trade : ℕ
  max_adverse_excursion : ℚ
  max_favorable_excursion : ℚ
  pyramid_trigger : Option ℚ
  deriving DecidableEq, Repr

/-- `Trade.__init__`: builds a fresh `Trade` from the constructor
arguments (the extra `id` models Python object identity;
`pyramid_trigger` models the attribute set dynamically by the engine,
absent at construction). -/
def Trade.init (id : ℕ) (entry_date : ℕ) (entry_price : ℚ) (shares : ℤ)
    (signal : ℤ) (stop_price : ℚ) (strategy : String) (stop_mult : ℚ)
    (trailing_mult : ℚ) (is_pyramid : Bool) : Trade :=
  { id := id
    entry_date := entry_date
    entry_price := entry_price
    shares := shares
    signal := signal
    stop_price := stop_price
    trailing_stop := stop_price
    stop_mult := if stop_mult > 0 then stop_mult else 0
    trailing_mult := if trailing_mult > 0 then trailing_mult else 0
    initial_stop_price := stop_price
    initial_risk_per_share :=
      if signal > 0 then max (entry_price - stop_price) (1 / 1000000)
      else max (stop_price - entry_price) (1 / 1000000)
    current_r_multiple := 0
    is_pyramid := is_pyramid
    exit_date := none
    exit_price := none
    exit_reason := ""
    strategy := strategy
    bars_in_trade := 0
    max_adverse_excursion := 0
    max_favorable_excursion := 0
    pyramid_trigger := none }

/-- `Trade.update_trailing_stop`. -/
def Trade.update_trailing_stop (t : Trade) (current_price atr : ℚ)
    (default_trailing_mult : ℚ) : Trade :=
  let trailing_mult := if t.trailing_mult > 0 then t.trailing_mult else default_trailing_mult
  let trailing_distance := atr * trailing_mult
  if t.signal > 0 then
    { t with trailing_stop := max t.trailing_stop (current_price - trailing_distance) }
  else
    { t with trailing_stop := min t.trailing_stop (current_price + trailing_distance) }

/-- `Trade.calculate_pnl`. -/
def Trade.calculate_pnl (t : Trade) (current_price : ℚ) : ℚ :=
  if t.signal > 0 then (current_price - t.entry_price) * t.shares
  else (t.entry_price - current_price) * t.shares

/-- `Trade.calculate_r_multiple`. -/
def Trade.calculate_r_multiple (t : Trade) (risk_per_share : ℚ) : ℚ :=
  if t.exit_price = none ∨ risk_per_share = 0 then 0
  else
    let ep := t.exit_price.getD 0
    let return_amount :=
      if t.signal > 0 then (ep - t.entry_price) * t.shares
      else (t.entry_price - ep) * t.shares
    let risk_amount :=
      if t.signal > 0 then |t.entry_price - t.stop_price| * t.shares
      else |t.stop_price - t.entry_price| * t.shares
    if risk_amount > 0 then return_amount / risk_amount else 0

/-! ## RiskManager (`risk/manager.py`, class `RiskManager`) -/

/-- The risk-configuration dictionary (`config` argument of
`RiskManager.__init__`), with the source's `config.get` defaults as
the natural instantiation. -/
structure RiskConfig where
  initial_capital : ℚ := 100000
  per_trade_risk_pct : ℚ := 1
  max_net_exposure : ℚ := 3/2
  min_net_exposure : ℚ := -1
  max_gross_exposure : ℚ := 2
  stop_atr_mult : ℚ := 5/2
  trailing_stop_atr_mult : ℚ := 3/2
  trailing_start_r : ℚ := 1
  trailing_mid_r : ℚ := 2
  trailing_end_r : ℚ := 4
  trailing_start_mult : ℚ := 3/2
  trailing_mid_mult : ℚ := 1
  trailing_end_mult : ℚ := 4/5
  time_stop_bars : ℕ := 20
  daily_loss_limit_pct : ℚ := 5/2
  max_drawdown_pct : ℚ := 18
  drawdown_recovery_exposure : ℚ := 2/5
  pyramid_enabled : Bool := false
  pyramid_max_adds : ℕ := 0
  pyramid_add_thresholds : List ℚ := []
  pyramid_add_scale : ℚ := 1/2

structure RiskManager where
  initial_capital : ℚ
  equity : ℚ
  peak_equity : ℚ
  per_trade_risk_pct : ℚ
  max_net_exposure : ℚ
  min_net_exposure : ℚ
  max_gross_exposure : ℚ
  stop_atr_mult : ℚ
  trailing_stop_atr_mult : ℚ
  trailing_start_r : ℚ
  trailing_mid_r : ℚ
  trailing_end_r : ℚ
  trailing_start_mult : ℚ
  trailing_mid_mult : ℚ
  trailing_end_mult : ℚ
  time_stop_bars : ℕ
  daily_loss_limit_pct : ℚ
  max_drawdown_pct : ℚ
  drawdown_recovery_exposure : ℚ
  pyramid_enabled : Bool
  pyramid_max_adds : ℕ
  pyramid_add_thresholds : List ℚ
  pyramid_add_scale : ℚ
  positions : List Trade
  closed_trades : List Trade
  daily_pnl : ℚ
  last_trade_date : Option ℕ
  trading_paused : Bool
  daily_equity : List ℚ
  daily_dates : List ℤ
  next_id : ℕ

/-- `RiskManager.__init__` (the `daily_dates` seed `datetime.now()` is
modelled as day 0; `next_id` is the identity supply). -/
def RiskManager.init (cfg : RiskConfig) : RiskManager :=
  { initial_capital := cfg.initial_capital
    equity := cfg.initial_capital
    peak_equity := cfg.initial_capital
    per_trade_risk_pct := cfg.per_trade_risk_pct
    max_net_exposure := cfg.max_net_exposure
    min_net_exposure := cfg.min_net_exposure
    max_gross_exposure := cfg.max_gross_exposure
    stop_atr_mult := cfg.stop_atr_mult
    trailing_stop_atr_mult := cfg.trailing_stop_atr_mult
    trailing_start_r := cfg.trailing_start_r
    trailing_mid_r := cfg.trailing_mid_r
    trailing_end_r := cfg.trailing_end_r
    trailing_start_mult := cfg.trailing_start_mult
    trailing_mid_mult := cfg.trailing_mid_mult
    trailing_end_mult := cfg.trailing_end_mult
    time_stop_bars := cfg.time_stop_bars
    daily_loss_limit_pct := cfg.daily_loss_limit_pct
    max_drawdown_pct := cfg.max_drawdown_pct
    drawdown_recovery_exposure := cfg.drawdown_recovery_exposure
    pyramid_enabled := cfg.pyramid_enabled
    pyramid_max_adds := cfg.pyramid_max_adds
    pyramid_add_thresholds := cfg.pyramid_add_thresholds
    pyramid_add_scale := cfg.pyramid_add_scale
    positions := []
    closed_trades := []
    daily_pnl := 0
    last_trade_date := none
    trading_paused := false
    daily_equity := [cfg.initial_capital]
    daily_dates := [0]
    next_id := 0 }

/-- `RiskManager.get_current_drawdown`: note the source returns
`(equity - peak_equity) / peak_equity * 100`, which is ≤ 0 whenever
the equity sits below the peak. -/
def RiskManager.get_current_drawdown (rm : RiskManager) : ℚ :=
  if rm.peak_equity > 0 then (rm.equity - rm.peak_equity) / rm.peak_equity * 100
  else 0

/-- `RiskManager.get_exposure` (net, gross). -/
def RiskManager.get_exposure (rm : RiskManager) : ℚ × ℚ :=
  let long_value := ((rm.positions.filter (fun p => p.signal > 0)).map
    (fun p => p.entry_price * (p.shares : ℚ))).sum
  let short_value := ((rm.positions.filter (fun p => p.signal < 0)).map
    (fun p => p.entry_price * (p.shares : ℚ))).sum
  let net_exposure := if rm.equity > 0 then (long_value - short_value) / rm.equity else 0
  let gross_exposure := if rm.equity > 0 then (long_value + short_value) / rm.equity else 0
  (net_exposure, gross_exposure)

/-- `RiskManager.can_enter_trade` (the `price` and `atr` arguments are
accepted but unused by the source body). -/
def RiskManager.can_enter_trade (rm : RiskManager) (signal : ℤ)
    (price atr : ℚ) : Bool :=
  if rm.trading_paused then false
  else
    let current_dd := rm.get_current_drawdown
    if current_dd > rm.max_drawdown_pct then false
    else
      let ng := rm.get_exposure
      if signal > 0 ∧ ng.1 ≥ rm.max_net_exposure then false
      else if ¬ (signal > 0) ∧ ng.1 ≤ rm.min_net_exposure then false
      else if ng.2 ≥ rm.max_gross_exposure then false
      else if rm.daily_pnl < -(rm.equity * rm.daily_loss_limit_pct / 100) then false
      else true

/-- `RiskManager.calculate_stop_price`. -/
def RiskManager.calculate_stop_price (rm : RiskManager) (entry_price atr : ℚ)
    (signal : ℤ) (stop_mult : Option ℚ) : ℚ :=
  let effective_mult := stop_mult.getD rm.stop_atr_mult
  let stop_distance := atr * effective_mult
  if signal > 0 then entry_price - stop_distance
  else entry_price + stop_distance

/-- `RiskManager.enter_trade`: returns the created trade (or `none`)
together with the updated manager. -/
def RiskManager.enter_trade (rm : RiskManager) (date : ℕ) (price : ℚ)
    (signal : ℤ) (atr : ℚ) (shares : ℤ) (strategy : String)
    (stop_mult trailing_mult : Option ℚ) (is_pyramid : Bool) :
    Option Trade × RiskManager :=
  if ¬ rm.can_enter_trade signal price atr then (none, rm)
  else
    let stop_multiplier := stop_mult.getD rm.stop_atr_mult
    let trailing_multiplier := trailing_mult.getD rm.trailing_stop_atr_mult
    let stop_price := rm.calculate_stop_price price atr signal (some stop_multiplier)
    let trade := Trade.init rm.next_id date price shares signal stop_price
      strategy stop_multiplier trailing_multiplier is_pyramid
    (some trade,
      { rm with positions := rm.positions ++ [trade]
                last_trade_date := some date
                next_id := rm.next_id + 1 })

/-- The successful branch of `enter_trade` packaged as a value: the
created trade together with the manager extended by it. -/
def RiskManager.enterResult (rm : RiskManager) (date : ℕ) (price : ℚ)
    (signal : ℤ) (atr : ℚ) (shares : ℤ) (strategy : String)
    (stop_mult trailing_mult : Option ℚ) (is_pyramid : Bool) :
    Trade × RiskManager :=
  let stop_multiplier := stop_mult.getD rm.stop_atr_mult
  let trailing_multiplier := trailing_mult.getD rm.trailing_stop_atr_mult
  let stop_price := rm.calculate_stop_price price atr signal (some stop_multiplier)
  let trade := Trade.init rm.next_id date price shares signal stop_price
    strategy stop_multiplier trailing_multiplier is_pyramid
  (trade,
    { rm with positions := rm.positions ++ [trade]
              last_trade_date := some date
              next_id := rm.next_id + 1 })

/-- Replace (in place) the entry of `positions` carrying `t.id` by `t`
— the Lean rendering of a Python attribute mutation on a shared
`Trade` object. -/
def RiskManager.setTrade (rm : RiskManager) (t : Trade) : RiskManager :=
  { rm with positions := rm.positions.map (fun u => if u.id = t.id then t else u) }

/-- `RiskManager.force_exit`: sets the exit fields on the trade,
realizes its P&L into equity and daily P&L, removes it from the open
list (by identity, if present) and appends it to the closed list,
updating the peak.  Returns the mutated trade together with the
updated manager. -/
def RiskManager.force_exit (rm : RiskManager) (t : Trade) (date : ℕ)
    (price : ℚ) (reason : String) : Trade × RiskManager :=
  let t' := { t with exit_date := some date, exit_price := some price,
                     exit_reason := reason }
  let pnl := t'.calculate_pnl price
  let equity' := rm.equity + pnl
  let positions' :=
    if rm.positions.any (fun u => u.id = t.id) then
      rm.positions.eraseP (fun u => u.id = t.id)
    else rm.positions
  (t', { rm with equity := equity'
                 daily_pnl := rm.daily_pnl + pnl
                 positions := positions'.map (fun u => if u.id = t.id then t' else u)
                 closed_trades := rm.closed_trades ++ [t']
                 peak_equity := if equity' > rm.peak_equity then equity' else rm.peak_equity })

/-- The per-trade mutation performed by the body of
`RiskManager.update_positions` before the exit decision: bars-held
increment, R-multiple, trailing-stop tier escalation, excursions. -/
def RiskManager.updateOneTrade (rm : RiskManager) (current_price atr : ℚ)
    (t : Trade) : Trade :=
  let t := { t with bars_in_trade := t.bars_in_trade + 1 }
  let gain_per_share :=
    if t.signal > 0 then current_price - t.entry_price
    else t.entry_price - current_price
  let initial_risk :=
    if t.initial_risk_per_share > 0 then t.initial_risk_per_share
    else max |t.entry_price - t.initial_stop_price| (1 / 1000000)
  let r_multiple := if initial_risk > 0 then gain_per_share / initial_risk else 0
  let t := { t with current_r_multiple := r_multiple }
  let t :=
    if r_multiple ≥ rm.trailing_end_r then
      ({ t with trailing_mult := max rm.trailing_end_mult (1/10) }).update_trailing_stop
        current_price atr rm.trailing_stop_atr_mult
    else if r_multiple ≥ rm.trailing_mid_r then
      ({ t with trailing_mult := max rm.trailing_mid_mult (1/10) }).update_trailing_stop
        current_price atr rm.trailing_stop_atr_mult
    else if r_multiple ≥ rm.trailing_start_r then
      ({ t with trailing_mult := max rm.trailing_start_mult (1/10) }).update_trailing_stop
        current_price atr rm.trailing_stop_atr_mult
    else t
  let pnl := t.calculate_pnl current_price
  let t := if pnl < t.max_adverse_excursion then { t with max_adverse_excursion := pnl } else t
  let t := if pnl > t.max_favorable_excursion then { t with max_favorable_excursion := pnl } else t
  t

/-- The exit decision of `RiskManager.update_positions` for one (already
updated) trade: `some (reason, exit_price)` if a stop or time stop
fires this bar. -/
def RiskManager.exitDecision (rm : RiskManager) (current_price high low : ℚ)
    (t : Trade) : Option (String × ℚ) :=
  let pnl := t.calculate_pnl current_price
  if t.signal > 0 ∧ low ≤ t.trailing_stop then some ("stop_loss", t.trailing_stop)
  else if ¬ (t.signal > 0) ∧ high ≥ t.trailing_stop then some ("stop_loss", t.trailing_stop)
  else if rm.time_stop_bars > 0 ∧ t.bars_in_trade ≥ rm.time_stop_bars ∧ pnl ≤ 0 then
    some ("time_stop", current_price)
  else none

/-- The body of the per-trade loop of `RiskManager.update_positions`:
mutate the trade in place, then force-exit it if its stop or time stop
fires. -/
def RiskManager.updatePositionsStep (date : ℕ)
    (current_price atr high low : ℚ) (acc : RiskManager × List Trade)
    (t : Trade) : RiskManager × List Trade :=
  let rm := acc.1
  let t' := rm.updateOneTrade current_price atr t
  let rm := rm.setTrade t'
  match rm.exitDecision current_price high low t' with
  | some re =>
      let r := rm.force_exit t' date re.2 re.1
      (r.2, acc.2 ++ [r.1])
  | none => (rm, acc.2)

/-- `RiskManager.update_positions`: iterates over a copy of the open
list, mutating each trade in place and force-exiting the ones whose
stop or time stop fires; returns the updated manager and the list of
trades closed this bar. -/
def RiskManager.update_positions (rm : RiskManager) (date : ℕ)
    (current_price atr high low : ℚ) : RiskManager × List Trade :=
  rm.positions.foldl
    (RiskManager.updatePositionsStep date current_price atr high low)
    (rm, [])

/-- `RiskManager.reset_daily`: zeroes the daily P&L, appends to the
daily tracking lists, then recomputes the pause flag from the (just
zeroed) daily P&L, and applies the drawdown-recovery throttle when the
(signed) drawdown exceeds the limit. -/
def RiskManager.reset_daily (rm : RiskManager) (date : ℤ) : RiskManager :=
  let rm := { rm with daily_pnl := 0
                      daily_equity := rm.daily_equity ++ [rm.equity]
                      daily_dates := rm.daily_dates ++ [date] }
  let rm :=
    if rm.daily_pnl < -(rm.equity * rm.daily_loss_limit_pct / 100) then
      { rm with trading_paused := true }
    else
      { rm with trading_paused := false }
  let current_dd := rm.get_current_drawdown
  if current_dd > rm.max_drawdown_pct then
    { rm with per_trade_risk_pct := rm.per_trade_risk_pct * rm.drawdown_recovery_exposure }
  else rm

/-- `RiskManager.can_pyramid`. -/
def RiskManager.can_pyramid (rm : RiskManager) (signal : ℤ)
    (strategy_name : String) : Option (Trade × ℚ) :=
  if ¬ rm.pyramid_enabled then none
  else
    let same_trades := rm.positions.filter
      (fun t => t.signal = signal ∧ t.strategy = strategy_name)
    match same_trades.head? with
    | none => none
    | some base_trade =>
        let add_count := same_trades.length - 1
        if add_count ≥ rm.pyramid_max_adds then none
        else
          let thresholds := rm.pyramid_add_thresholds
          let threshold :=
            if thresholds ≠ [] then
              thresholds.getD (min add_count (thresholds.length - 1)) 0
            else (3/2) * (add_count + 1)
          if base_trade.current_r_multiple ≥ threshold then
            some (base_trade, threshold)
          else none

/-- `RiskManager.pyramid_share_scale`. -/
def RiskManager.pyramid_share_scale (rm : RiskManager) : ℚ :=
  max rm.pyramid_add_scale (1/10)

/-! ## PositionSizer (`risk/position_sizing.py`) -/

structure PositionSizer where
  initial_capital : ℚ
  per_trade_risk_pct : ℚ
  stop_atr_mult : ℚ
  deriving DecidableEq, Repr

/-- `PositionSizer.calculate_size`.  The Python return value
`max(0, int(shares))` truncates the float toward zero. -/
def PositionSizer.calculate_size (ps : PositionSizer) (price atr equity : ℚ)
    (size_multiplier : ℚ) (stop_mult : Option ℚ) : ℤ :=
  let risk_amount := equity * (ps.per_trade_risk_pct / 100)
  let effective_stop_mult := stop_mult.getD ps.stop_atr_mult
  let stop_distance := atr * effective_stop_mult
  let shares : ℚ :=
    if stop_distance > 0 then (risk_amount / stop_distance) * size_multiplier
    else 0
  max 0 (pytrunc shares)

/-! ## BacktestEngine (`backtesting/engine.py`) -/

/-- One row of the feature-enriched price table.  `atr` is `Option`
because the source falls back to `close * 0.02` when the column is
absent (`current_row.get('atr', ...)`); `day` is the calendar day of
the row's timestamp, used for the daily-rollover test. -/
structure Bar where
  high : ℚ
  low : ℚ
  close : ℚ
  atr : Option ℚ
  day : ℤ
  deriving DecidableEq, Repr

/-- `current_row.get('atr', current_row['close'] * 0.02)`. -/
def Bar.atrD (b : Bar) : ℚ :=
  b.atr.getD (b.close * (2/100))

/-- One record of `BacktestEngine.trade_log`. -/
structure TradeLogEntry where
  entry_date : ℕ
  exit_date : Option ℕ
  side : String
  shares : ℤ
  entry_price : ℚ
  exit_price : ℚ
  stop_price : ℚ
  exit_reason : String
  pnl : ℚ
  r_multiple : ℚ
  bars_in_trade : ℕ
  strategy : String
  deriving DecidableEq, Repr

structure BacktestEngine where
  commission_per_share : ℚ
  slippage_bps : ℚ
  market_impact_bps : ℚ
  position_sizer : PositionSizer
  risk_manager : RiskManager
  equity_curve : List ℚ
  trade_log : List TradeLogEntry

/-- `BacktestEngine._apply_costs`. -/
def BacktestEngine._apply_costs (e : BacktestEngine) (price : ℚ) (shares : ℤ)
    (side : String) : ℚ :=
  let commission := e.commission_per_share * (shares : ℚ)
  let commission_per_share := if shares > 0 then commission / (shares : ℚ) else 0
  let slippage := price * (e.slippage_bps / 10000)
  let impact := price * (e.market_impact_bps / 10000)
  let cost_per_share := commission_per_share + slippage + impact
  if side = "entry" then price + cost_per_share
  else price - cost_per_share

/-- `BacktestEngine._calculate_current_equity`: recomputes equity from
scratch as initial capital, plus realized P&L of the closed trades
whose `exit_price` is truthy (`if trade.exit_price:` in Python skips
both `None` and `0.0`), plus unrealized P&L of the open positions at
`current_price`. -/
def BacktestEngine._calculate_current_equity (e : BacktestEngine)
    (current_price : ℚ) (positions : List Trade) : ℚ :=
  let equity := e.risk_manager.initial_capital
  let equity := equity + (e.risk_manager.closed_trades.map (fun t =>
    match t.exit_price with
    | some ep => if ep ≠ 0 then t.calculate_pnl ep else 0
    | none => 0)).sum
  equity + (positions.map (fun t => t.calculate_pnl current_price)).sum

/-- `BacktestEngine._log_trade`. -/
def BacktestEngine._log_trade (e : BacktestEngine) (t : Trade)
    (current_price : ℚ) : BacktestEngine :=
  match t.exit_price with
  | none => e
  | some ep =>
      let risk_per_share := |t.entry_price - t.stop_price|
      let r_multiple := t.calculate_r_multiple risk_per_share
      let exit_price_with_costs := e._apply_costs ep t.shares "exit"
      let pnl_with_costs := t.calculate_pnl exit_price_with_costs
      { e with trade_log := e.trade_log ++
          [{ entry_date := t.entry_date
             exit_date := t.exit_date
             side := if t.signal > 0 then "long" else "short"
             shares := t.shares
             entry_price := t.entry_price
             exit_price := exit_price_with_costs
             stop_price := t.stop_price
             exit_reason := t.exit_reason
             pnl := pnl_with_costs
             r_multiple := r_multiple
             bars_in_trade := t.bars_in_trade
             strategy := t.strategy }] }

/-- A core strategy as the engine sees it: a name
(`strategy.__class__.__name__`), the final-row signal produced by
`generate_signals(df.iloc[:i+1])` at each bar index, and the optional
`should_exit` capability.  A run of the engine is defined for any such
signal stream, which is the engine's interface to strategy code. -/
structure StratSpec where
  name : String
  sig : ℕ → ℤ
  hasShouldExit : Bool
  shouldExit : ℕ → Bool

/-- The optional volatility-overlay and regime-filter side channels,
each modelled by the last element of its multiplier series at each bar
(`none` = NaN).  The source's empty-series and raised-exception
branches leave the multiplier at the same default the absent case
uses, so they are covered by these parameters. -/
structure EngineParams where
  strategies : List StratSpec
  vol_overlay : Option (ℕ → Option ℚ)
  regime_filter : Option (ℕ → Option ℚ)

/-- `pandas.Series.rank(pct=True)` evaluated at the last element
(average rank of ties, divided by the series length). -/
def rankPctLast (xs : List ℚ) : ℚ :=
  match xs.getLast? with
  | none => 0
  | some x =>
      let n := xs.length
      let less := (xs.filter (fun v => v < x)).length
      let eq := (xs.filter (fun v => v = x)).length
      ((less : ℚ) + ((eq : ℚ) + 1) / 2) / (n : ℚ)

/-- The trailing-ATR percentile of `engine.run` (lines 188-193):
`current_data['atr'].dropna()`, percentile rank of its last value when
at least 50 values exist, else 0.5, clipped to [0,1]. -/
def atrPercentile (bars : List Bar) (i : ℕ) : ℚ :=
  let atr_series := (bars.take (i+1)).filterMap Bar.atr
  let p := if atr_series.length ≥ 50 then rankPctLast atr_series else 1/2
  npclip p 0 1

/-- Regime-filter exposure multiplier (engine lines 164-176). -/
def regimeExposureMult (params : EngineParams) (i : ℕ) : ℚ :=
  match params.regime_filter with
  | none => 1
  | some f =>
      match f i with
      | none => 1/10
      | some v => if v ≤ 0 then 1/10 else v

/-- Volatility-overlay size multiplier (engine lines 197-207). -/
def volSizeMult (params : EngineParams) (i : ℕ) : ℚ :=
  match params.vol_overlay with
  | none => 1
  | some f =>
      match f i with
      | none => 1
      | some v => if v > 0 then v else 1

/-- The per-strategy signal-to-entry body of the bar loop of
`BacktestEngine.run` (lines 137-238): pyramid classification, regime
exposure, entry eligibility, volatility-adaptive stop/trailing
multipliers, size multiplier, sizing, entry costs and trade entry. -/
def BacktestEngine.processStrategySignal (params : EngineParams)
    (bars : List Bar) (i : ℕ) (row : Bar) (e : BacktestEngine)
    (strat : StratSpec) : BacktestEngine :=
  let signal := strat.sig i
  if signal = 0 then e
  else
    let same_signal_trades := e.risk_manager.positions.filter
      (fun t => t.signal = signal ∧ t.strategy = strat.name)
    let pyr : Option (Bool × Option ℚ) :=
      if same_signal_trades ≠ [] then
        match e.risk_manager.can_pyramid signal strat.name with
        | some pc => some (true, some pc.2)
        | none => none
      else some (false, none)
    match pyr with
    | none => e
    | some ip =>
        let is_pyramid := ip.1
        let pyramid_threshold := ip.2
        let exposure_mult := regimeExposureMult params i
        if ¬ e.risk_manager.can_enter_trade signal row.close row.atrD then e
        else
          let atr := row.atrD
          let atr_percentile := atrPercentile bars i
          let stop_mult := npclip (18/10 + (1 - atr_percentile) * (8/10)) (18/10) (26/10)
          let trailing_mult := npclip (1 + (1 - atr_percentile) * (2/10)) (8/10) (12/10)
          let size_mult := volSizeMult params i
          let size_mult := size_mult * exposure_mult
          let size_mult :=
            if is_pyramid then size_mult * e.risk_manager.pyramid_share_scale
            else size_mult
          let size_mult := max size_mult (2/10)
          let shares := e.position_sizer.calculate_size row.close atr
            e.risk_manager.equity size_mult (some stop_mult)
          if shares ≤ 0 then e
          else
            let entry_price := e._apply_costs row.close shares "entry"
            let r := e.risk_manager.enter_trade i entry_price signal atr shares
              strat.name (some stop_mult) (some trailing_mult) is_pyramid
            let e := { e with risk_manager := r.2 }
            match r.1, pyramid_threshold with
            | some trade, some thr =>
                { e with risk_manager :=
                    e.risk_manager.setTrade { trade with pyramid_trigger := some thr } }
            | _, _ => e

/-- The body of the per-trade loop of the trend-break pass: force the
trade out at the close with reason `trend_break` when it belongs to
the exiting strategy. -/
def BacktestEngine.trendBreakStep (i : ℕ) (row : Bar) (name : String)
    (acc2 : BacktestEngine × List Trade) (t : Trade) :
    BacktestEngine × List Trade :=
  if t.strategy = name then
    let r := acc2.1.risk_manager.force_exit t i row.close "trend_break"
    ({ acc2.1 with risk_manager := r.2 }, acc2.2 ++ [r.1])
  else acc2

/-- The trend-break exit pass of the bar loop (engine lines 123-131):
for each strategy exposing `should_exit` that fires this bar, force
out all its open trades at the close with reason `trend_break`. -/
def BacktestEngine.trendBreakExits (i : ℕ) (row : Bar)
    (acc : BacktestEngine × List Trade) (strat : StratSpec) :
    BacktestEngine × List Trade :=
  let e := acc.1
  if strat.hasShouldExit ∧ e.risk_manager.positions ≠ [] ∧ strat.shouldExit i then
    e.risk_manager.positions.foldl
      (BacktestEngine.trendBreakStep i row strat.name)
      acc
  else acc

/-- Everything the bar loop does for one bar before the equity mark:
position updates, trend-break exits, trade logging, and the
per-strategy signal/entry pass. -/
def BacktestEngine.barCore (params : EngineParams) (bars : List Bar)
    (e : BacktestEngine) (i : ℕ) (row : Bar) : BacktestEngine :=
  let r := e.risk_manager.update_positions i row.close row.atrD row.high row.low
  let e := { e with risk_manager := r.1 }
  let tb := params.strategies.foldl (BacktestEngine.trendBreakExits i row) (e, r.2)
  let e := tb.2.foldl (fun e t => e._log_trade t row.close) tb.1
  params.strategies.foldl (BacktestEngine.processStrategySignal params bars i row) e

/-- One full iteration of the bar loop of `BacktestEngine.run` for bar
`i` (assumed ≥ 50): `barCore`, then the equity mark appended to the
curve, then the daily rollover (`i == len(dates)-1 or dates[i+1].date()
!= date.date()`). -/
def BacktestEngine.barStep (params : EngineParams) (bars : List Bar)
    (e : BacktestEngine) (i : ℕ) (row : Bar) : BacktestEngine :=
  let e := BacktestEngine.barCore params bars e i row
  let current_equity := e._calculate_current_equity row.close e.risk_manager.positions
  let e := { e with equity_curve := e.equity_curve ++ [current_equity] }
  if i = bars.length - 1 then
    { e with risk_manager := e.risk_manager.reset_daily row.day }
  else
    match bars.get? (i+1) with
    | some nxt =>
        if nxt.day ≠ row.day then { e with risk_manager := e.risk_manager.reset_daily row.day }
        else e
    | none => e

/-- The engine state at the top of `BacktestEngine.run`: fresh
`RiskManager`, equity curve seeded with the initial capital, empty
trade log. -/
def BacktestEngine.start (cfg : RiskConfig) (costs_commission costs_slippage costs_impact : ℚ) :
    BacktestEngine :=
  { commission_per_share := costs_commission
    slippage_bps := costs_slippage
    market_impact_bps := costs_impact
    position_sizer :=
      { initial_capital := cfg.initial_capital
        per_trade_risk_pct := cfg.per_trade_risk_pct
        stop_atr_mult := cfg.stop_atr_mult }
    risk_manager := RiskManager.init cfg
    equity_curve := [cfg.initial_capital]
    trade_log := [] }

/-- The bar loop of `BacktestEngine.run` over the first `k` bars
(`for i, date in enumerate(dates): if i < 50: continue; ...`). -/
def BacktestEngine.runPrefix (cfg : RiskConfig)
    (costs_commission costs_slippage costs_impact : ℚ)
    (params : EngineParams) (bars : List Bar) (k : ℕ) : BacktestEngine :=
  ((bars.enum.take k).foldl
    (fun e p => if p.1 < 50 then e else BacktestEngine.barStep params bars e p.1 p.2)
    (BacktestEngine.start cfg costs_commission costs_slippage costs_impact))

/-- The end-of-run forced liquidation (engine lines 250-258): for every
remaining open trade, set its exit fields to the final bar and close,
add its raw P&L to the risk manager's equity, and log it.  Note the
source neither removes these trades from `positions` nor appends them
to `closed_trades`. -/
def BacktestEngine.endStep (lastIdx : ℕ) (final_price : ℚ)
    (e : BacktestEngine) (t : Trade) : BacktestEngine :=
  let t' := { t with exit_date := some lastIdx
                     exit_price := some final_price
                     exit_reason := "end_of_backtest" }
  let pnl := t'.calculate_pnl final_price
  let e := { e with risk_manager :=
    { e.risk_manager with equity := e.risk_manager.equity + pnl } }
  let e := { e with risk_manager := e.risk_manager.setTrade t' }
  e._log_trade t' final_price

def BacktestEngine.endOfBacktest (bars : List Bar) (e : BacktestEngine) :
    BacktestEngine :=
  match bars.getLast? with
  | none => e
  | some lastRow =>
      e.risk_manager.positions.foldl
        (BacktestEngine.endStep (bars.length - 1) lastRow.close)
        e

/-- `BacktestEngine.run` up to (and including) the forced liquidation;
the metric computation that follows reads but does not change this
state. -/
def BacktestEngine.run (cfg : RiskConfig)
    (costs_commission costs_slippage costs_impact : ℚ)
    (params : EngineParams) (bars : List Bar) : BacktestEngine :=
  BacktestEngine.endOfBacktest bars
    (BacktestEngine.runPrefix cfg costs_commission costs_slippage costs_impact
      params bars bars.length)

/-! ## Strategy data validation and TrendEMA signals
(`strategies/base.py`, `strategies/trend_ema.py`)

A pandas DataFrame is a list of column series over a common timestamp
index (timestamps as calendar-day numbers).  A cell is `Option ℚ`,
`none` standing for NaN; pandas comparisons involving NaN are `false`,
which the `Option`-aware comparison helpers reproduce. -/

abbrev Series := List (Option ℚ)

structure DataFrame where
  index : List ℤ
  cols : List (String × Series)

def DataFrame.columns (df : DataFrame) : List String :=
  df.cols.map Prod.fst

def DataFrame.col? (df : DataFrame) (name : String) : Option Series :=
  df.cols.lookup name

/-- Column access for columns known to exist (after validation). -/
def DataFrame.colD (df : DataFrame) (name : String) : Series :=
  (df.col? name).getD (List.replicate df.index.length none)

/-- `series.shift(1)`. -/
def sShift (s : Series) : Series :=
  none :: s.dropLast

/-- `series.shift(1)` on a boolean mask (`.fillna(False)` built in:
the new first entry is `False`). -/
def bShift (s : List Bool) : List Bool :=
  false :: s.dropLast

/-- NaN-aware `>`: any comparison with NaN is `False` in pandas. -/
def gtB (a b : Option ℚ) : Bool :=
  match a, b with
  | some x, some y => x > y
  | _, _ => false

/-- NaN-aware `<`. -/
def ltB (a b : Option ℚ) : Bool :=
  match a, b with
  | some x, some y => x < y
  | _, _ => false

/-- NaN-aware `<=`. -/
def leB (a b : Option ℚ) : Bool :=
  match a, b with
  | some x, some y => x ≤ y
  | _, _ => false

/-- Elementwise division `atr / close`; NaN propagates, and division
by zero yields a value (pandas: ±inf) that compares `false` under `<`,
modelled as `none`. -/
def divOpt (a b : Option ℚ) : Option ℚ :=
  match a, b with
  | some x, some y => if y = 0 then none else some (x / y)
  | _, _ => none

/-- `series.rolling(window=w, min_periods=1).max()`: maximum of the
non-NaN values in the trailing window, NaN if the window holds none. -/
def rollingMax (w : ℕ) (s : Series) : Series :=
  (List.range s.length).map (fun i =>
    (((s.take (i+1)).drop (i + 1 - w)).reduceOption).max?)

/-- `series.rolling(w).mean()` with the default `min_periods = w`: the
mean of the trailing `w` values when all are present, NaN otherwise. -/
def rollingMean (w : ℕ) (s : Series) : Series :=
  (List.range s.length).map (fun i =>
    let window := ((s.take (i+1)).drop (i + 1 - w)).reduceOption
    if w ≤ window.length ∧ 0 < w then some (window.sum / (w : ℚ)) else none)

/-- `series.fillna(method='ffill')`. -/
def sFfill (s : Series) : Series :=
  (s.foldl (fun (acc : Series × Option ℚ) x =>
    match x with
    | some v => (acc.1 ++ [some v], some v)
    | none => (acc.1 ++ [acc.2], acc.2)) ([], none)).1

/-- Elementwise boolean `and` of two masks. -/
def bAnd (a b : List Bool) : List Bool :=
  List.zipWith and a b

/-- The error raised by `BaseStrategy.validate_data`
(`ValueError(f"Missing required columns: ...")`), which the
specification calls a `MissingColumnError`. -/
inductive BTError where
  | missingColumns (cols : List String)
  deriving DecidableEq, Repr

/-- `BaseStrategy.validate_data`. -/
def BaseStrategy.validate_data (df : DataFrame) : Except BTError Unit :=
  let required_cols := ["open", "high", "low", "close", "volume"]
  let missing := required_cols.filter (fun c => ! df.columns.contains c)
  if missing ≠ [] then Except.error (BTError.missingColumns missing)
  else Except.ok ()

/-- The configuration of `TrendEMAStrategy` with the source's
`config.get` defaults. -/
structure TrendEMAConfig where
  ema_fast : ℕ := 12
  ema_medium : ℕ := 26
  ema_slow : ℕ := 55
  rsi_long_threshold : ℚ := 0
  long_only : Bool := true
  regime_filter_enabled : Bool := true
  regime_sma_period : ℕ := 250
  dual_timeframe_enabled : Bool := true
  dual_timeframe_ema : ℕ := 144
  pullback_tolerance : ℚ := 4/100
  continuation_tolerance : ℚ := 3/100
  max_volatility : ℚ := 45/100
  min_bars_between_signals : ℕ := 1
  exit_buffer : ℚ := 1/100
  fast_buffer : ℚ := 0
  volatility_time_stop_bars : ℕ := 0
  volatility_time_stop_threshold : ℚ := 0
  adx_threshold : ℚ := 0

/-- The cooldown assignment loop of `TrendEMAStrategy.generate_signals`
(`for idx in raw[raw].index: if last_entry is None or (idx -
last_entry).days >= cooldown: signals.at[idx] = value`). -/
def cooldownAssign (index : List ℤ) (raw : List Bool) (cooldown : ℕ)
    (value : ℤ) (signals : List ℤ) : List ℤ :=
  ((List.range signals.length).foldl
    (fun (acc : List ℤ × Option ℤ) i =>
      if raw.getD i false then
        match acc.2 with
        | none => (acc.1.set i value, some (index.getD i 0))
        | some last =>
            if index.getD i 0 - last ≥ (cooldown : ℤ) then
              (acc.1.set i value, some (index.getD i 0))
            else acc
      else acc)
    (signals, none)).1

/-- `TrendEMAStrategy.generate_signals`: validates the OHLCV columns,
returns all-neutral when the required feature columns are absent, and
otherwise computes the long (and optionally short) entry mask from the
EMA-crossover/swing-break triggers and the regime, dual-timeframe,
RSI, ADX and volatility filters, with an optional cooldown between
signals. -/
def TrendEMAStrategy.generate_signals (cfg : TrendEMAConfig)
    (df : DataFrame) : Except BTError (List ℤ) := do
  let _ ← BaseStrategy.validate_data df
  let n := df.index.length
  let cooldown := max 1 cfg.min_bars_between_signals
  let ema_fast_col := "ema_" ++ toString cfg.ema_fast
  let ema_medium_col := "ema_" ++ toString cfg.ema_medium
  let ema_slow_col := "ema_" ++ toString cfg.ema_slow
  let sma50_col := "sma_50"
  let sma200_col := "sma_200"
  let dual_ema_col := "ema_" ++ toString cfg.dual_timeframe_ema
  let required_cols := [ema_fast_col, ema_medium_col, ema_slow_col, sma50_col, sma200_col]
    ++ (if cfg.dual_timeframe_enabled then [dual_ema_col] else [])
  if ¬ required_cols.all (fun c => df.columns.contains c) then
    return List.replicate n 0
  else
    let close := df.colD "close"
    let high := df.colD "high"
    let ema_fast := df.colD ema_fast_col
    let ema_medium := df.colD ema_medium_col
    let ema_slow := df.colD ema_slow_col
    let rolling_high := rollingMax 20 high
    let cross_medium := bAnd (List.zipWith gtB close ema_medium)
      (List.zipWith leB (sShift close) (sShift ema_medium))
    let swing_break := List.zipWith gtB close (sShift rolling_high)
    let bullish_trend := bAnd (bAnd (List.zipWith gtB ema_fast ema_medium)
      (List.zipWith gtB ema_medium ema_slow)) (List.zipWith gtB close ema_slow)
    let regime_condition :=
      if cfg.regime_filter_enabled then
        let regime_col := "sma_" ++ toString cfg.regime_sma_period
        let regime_series :=
          match df.col? regime_col with
          | some s => s
          | none => rollingMean cfg.regime_sma_period close
        List.zipWith gtB close regime_series
      else List.replicate n true
    let dual_condition :=
      if cfg.dual_timeframe_enabled ∧ df.columns.contains dual_ema_col then
        List.zipWith gtB close (df.colD dual_ema_col)
      else List.replicate n true
    let rsi_ok :=
      if ¬ (cfg.rsi_long_threshold = 0) ∧ df.columns.contains "rsi" then
        (df.colD "rsi").map (fun v => gtB v (some cfg.rsi_long_threshold))
      else List.replicate n true
    let adx_ok :=
      if ¬ (cfg.adx_threshold = 0) ∧ df.columns.contains "adx" then
        (df.colD "adx").map (fun v => gtB v (some cfg.adx_threshold))
      else List.replicate n true
    let vol_ok :=
      if ¬ (cfg.max_volatility = 0) ∧ cfg.max_volatility > 0 then
        match df.col? "atr" with
        | some atr_series =>
            let volatility := sFfill (List.zipWith divOpt atr_series close)
            volatility.map (fun v => ltB v (some cfg.max_volatility))
        | none => List.replicate n true
      else List.replicate n true
    let trigger := bAnd (List.zipWith or cross_medium swing_break)
      (List.zipWith gtB close (ema_fast.map (fun v =>
        v.map (fun x => x * (1 + cfg.fast_buffer)))))
    let raw_long := bAnd (bAnd (bAnd (bAnd (bAnd (bAnd trigger bullish_trend)
      regime_condition) dual_condition) rsi_ok) adx_ok) vol_ok
    let signals : List ℤ := List.replicate n 0
    let signals :=
      if cooldown > 1 ∧ raw_long.any id then
        cooldownAssign df.index raw_long cooldown 1 signals
      else
        (List.range n).map (fun i => if raw_long.getD i false then 1 else signals.getD i 0)
    let signals :=
      if ¬ cfg.long_only then
        let sma50 := df.colD sma50_col
        let sma200 := df.colD sma200_col
        let bearish_trend := bAnd (bAnd (bAnd (List.zipWith ltB ema_fast ema_medium)
          (List.zipWith ltB ema_medium ema_slow)) (List.zipWith ltB close sma50))
          (List.zipWith ltB sma50 sma200)
        let fresh_short := bAnd bearish_trend ((bShift bearish_trend).map not)
        let dual_short :=
          if cfg.dual_timeframe_enabled then dual_condition.map not
          else List.replicate n true
        let raw_short := bAnd (bAnd (bAnd fresh_short (regime_condition.map not))
          dual_short) vol_ok
        if cooldown > 1 ∧ raw_short.any id then
          cooldownAssign df.index raw_short cooldown (-1) signals
        else
          (List.range n).map (fun i => if raw_short.getD i false then -1 else signals.getD i 0)
      else signals
    return signals

/-! ## Specification-side definitions and concrete scenarios -/

/-- The equity value the specification claims for each bar (spec §3
and §8): initial capital, plus the realized P&L of every closed trade
(its P&L at its recorded exit price — exactly the quantity
`force_exit` adds to equity), plus the unrealized P&L of every open
trade marked at the bar's close. -/
def specEquity (initial : ℚ) (closed positions : List Trade) (close : ℚ) : ℚ :=
  initial + (closed.map (fun t => t.calculate_pnl (t.exit_price.getD 0))).sum
          + (positions.map (fun t => t.calculate_pnl close)).sum

/-- Number of open trades with the given direction and strategy name
(the filter used by `can_pyramid` and the engine's pyramid check). -/
def countSame (l : List Trade) (sig : ℤ) (name : String) : ℕ :=
  (l.filter (fun t => t.signal = sig ∧ t.strategy = name)).length

/-- The bound the code actually enforces on concurrent trades of one
direction and strategy: one base trade plus at most
`pyramid_max_adds` adds when pyramiding is enabled, one otherwise. -/
def pyramidBound (rm : RiskManager) : ℕ :=
  if rm.pyramid_enabled then rm.pyramid_max_adds + 1 else 1

/-- The identity-stable part of a trade: its id, direction and
strategy (none of which any per-bar mutation changes). -/
def tradeKey (t : Trade) : ℕ × ℤ × String :=
  (t.id, t.signal, t.strategy)

def posKeys (l : List Trade) : List (ℕ × ℤ × String) :=
  l.map tradeKey

/-- Ids of open and closed trades together. -/
def allIds (rm : RiskManager) : List ℕ :=
  (rm.positions ++ rm.closed_trades).map Trade.id

/-! ### Concrete scenario: a stop ride to an exit price of exactly 0 (C1) -/

def barsC1 : List Bar :=
  (List.range 52).map (fun j =>
    if j = 51 then { high := 7, low := 0, close := 6, atr := none, day := (j : ℤ) }
    else if j = 50 then { high := 11, low := 11, close := 11, atr := some 5, day := (j : ℤ) }
    else { high := 9, low := 9, close := 9, atr := none, day := (j : ℤ) })

def stratC1 : StratSpec :=
  { name := "S", sig := fun i => if i = 50 then 1 else 0,
    hasShouldExit := false, shouldExit := fun _ => false }

def paramsC1 : EngineParams :=
  { strategies := [stratC1], vol_overlay := none, regime_filter := none }

def esC1 : BacktestEngine :=
  BacktestEngine.run {} 0 0 0 paramsC1 barsC1

/-! ### Concrete scenario: a trade still open at the final bar (C4, C7) -/

def barsC4 : List Bar :=
  (List.range 51).map (fun j =>
    if j = 50 then { high := 100, low := 100, close := 100, atr := some 10, day := (j : ℤ) }
    else { high := 100, low := 100, close := 100, atr := none, day := (j : ℤ) })

def stratC4 : StratSpec :=
  { name := "S", sig := fun i => if i = 50 then 1 else 0,
    hasShouldExit := false, shouldExit := fun _ => false }

def paramsC4 : EngineParams :=
  { strategies := [stratC4], vol_overlay := none, regime_filter := none }

def esC4 : BacktestEngine :=
  BacktestEngine.run {} 0 0 0 paramsC4 barsC4

def stratC7 : StratSpec :=
  { name := "S", sig := fun i => if i = 50 then -1 else 0,
    hasShouldExit := false, shouldExit := fun _ => false }

def paramsC7 : EngineParams :=
  { strategies := [stratC7], vol_overlay := none, regime_filter := none }

/-- A short entry with 50 bps of slippage and no commission/impact. -/
def esC7 : BacktestEngine :=
  BacktestEngine.run {} 0 50 0 paramsC7 barsC4

/-! ### Concrete scenario: a pyramid add (C8) -/

def cfgC8 : RiskConfig :=
  { pyramid_enabled := true, pyramid_max_adds := 1,
    pyramid_add_thresholds := [1], pyramid_add_scale := 1/2 }

def barsC8 : List Bar :=
  (List.range 52).map (fun j =>
    if j = 51 then { high := 151, low := 299/2, close := 150, atr := some 1, day := (j : ℤ) }
    else if j = 50 then { high := 100, low := 100, close := 100, atr := some 10, day := (j : ℤ) }
    else { high := 100, low := 100, close := 100, atr := none, day := (j : ℤ) })

def stratC8 : StratSpec :=
  { name := "S", sig := fun i => if i = 50 ∨ i = 51 then 1 else 0,
    hasShouldExit := false, shouldExit := fun _ => false }

def paramsC8 : EngineParams :=
  { strategies := [stratC8], vol_overlay := none, regime_filter := none }

/-- State after the bar loop over all 52 bars (no forced liquidation
yet; indices 50 and 51 are the processed bars). -/
def esC8 : BacktestEngine :=
  BacktestEngine.runPrefix cfgC8 0 0 0 paramsC8 barsC8 52

/-- A base trade whose R-multiple (2) has crossed the first pyramid
threshold (1) of `cfgC8`. -/
def tC8w : Trade :=
  { Trade.init 0 0 100 10 1 95 "S" (5/2) (3/2) false with
      current_r_multiple := 2 }

/-- A manager holding `tC8w` under the pyramid-enabled config `cfgC8`,
so that `can_pyramid 1 "S"` succeeds with threshold 1. -/
def rmC8w : RiskManager :=
  { RiskManager.init cfgC8 with positions := [tC8w], next_id := 1 }

/-! ### Concrete states for the risk-manager claims (C2, C3, C5, C10) -/

/-- A manager that lost 10,000 today on 100,000 of equity — ten times
the 2.5% daily loss limit. -/
def rmC2 : RiskManager :=
  { RiskManager.init {} with daily_pnl := -10000 }

/-- A manager 20% below its 100,000 peak, beyond the 18% drawdown
limit, with nothing else blocking an entry. -/
def rmC3 : RiskManager :=
  { RiskManager.init {} with equity := 80000 }

def tC5 : Trade :=
  Trade.init 0 0 100 10 1 95 "S" (5/2) (3/2) false

def rmC5 : RiskManager :=
  { RiskManager.init {} with positions := [tC5], next_id := 1 }

def uC5 : Trade :=
  ((rmC5.update_positions 1 110 2 111 109).1.positions).getD 0 tC5

def tC10 : Trade :=
  Trade.init 3 0 100 10 1 95 "S" (5/2) (3/2) false

/-- `tC10` after a stop exit at 90 was recorded on it. -/
def tC10x : Trade :=
  { tC10 with exit_date := some 7, exit_price := some 90, exit_reason := "stop_loss" }

/-- An engine with 0.01/share commission, 50 bps slippage and 20 bps
market impact. -/
def eC10 : BacktestEngine :=
  BacktestEngine.start {} (1/100) 50 20

/-! ### Concrete inputs for the witnesses of the engine-level theorems -/

def rowW : Bar :=
  { high := 9, low := 9, close := 9, atr := none, day := 0 }

def barsW : List Bar := [rowW]

def paramsW : EngineParams :=
  { strategies := [], vol_overlay := none, regime_filter := none }

/-- A price table with only an `open` column, used to exercise the
missing-column validation. -/
def dfC9 : DataFrame :=
  { index := [0], cols := [("open", [some 1])] }

/-- The bar-over-bar trailing-stop relation claim C5 asserts between
a trade at the start of a bar and the same trade afterwards: for a
long it never decreases, for a short it never increases. -/
def trailingRel (t v : Trade) : Prop :=
  (0 < t.signal → t.trailing_stop ≤ v.trailing_stop) ∧
  (t.signal < 0 → v.trailing_stop ≤ t.trailing_stop)

/-- The bookkeeping invariant of the risk manager's two trade lists:
no id appears twice across the open and closed lists, all ids are
below the identity supply, and every closed trade carries a nonempty
exit reason and an exit price. -/
def RmInv (rm : RiskManager) : Prop :=
  (allIds rm).Nodup ∧
  (∀ t ∈ rm.positions ++ rm.closed_trades, t.id < rm.next_id) ∧
  (∀ t ∈ rm.closed_trades, t.exit_reason ≠ "" ∧ t.exit_price ≠ none)

/-- The invariant maintained across the whole bar loop: the
bookkeeping invariant together with the pyramid count bound. -/
def LoopInv (rm : RiskManager) : Prop :=
  RmInv rm ∧
  ∀ sig name, countSame rm.positions sig name ≤ pyramidBound rm

/-- The loop invariant together with the fact that the manager still
carries the configured pyramid switches (nothing in the loop mutates
them). -/
def EngineInv (cfg : RiskConfig) (rm : RiskManager) : Prop :=
  LoopInv rm ∧
  rm.pyramid_enabled = cfg.pyramid_enabled ∧
  rm.pyramid_max_adds = cfg.pyramid_max_adds

/-! ## Theorems -/

unseal Rat.add Rat.mul Rat.sub Rat.inv

set_option maxRecDepth 10000

/-- Python `max(0, int(x))` agrees with `floor(max(0, x))`. -/
theorem max_pytrunc_eq_floor_max (x : ℚ) : max 0 (pytrunc x) = ⌊max 0 x⌋ := by
  unfold pytrunc
  rcases lt_or_le x 0 with h | h
  · have hc : ⌈x⌉ ≤ 0 := Int.ceil_le.mpr (by exact_mod_cast h.le)
    rw [if_pos h, max_eq_left hc, max_eq_left h.le, Int.floor_zero]
  · rw [if_neg (not_lt.mpr h), max_eq_right (Int.floor_nonneg.mpr h)]
    rw [max_eq_right h]

/-- `_apply_costs` adds `commission + price*(slippage+impact)/10000`
per share on entry and subtracts it on exit, for positive share
counts, independent of the trade's direction. -/
theorem apply_costs_spec (e : BacktestEngine) (price : ℚ) (shares : ℤ)
    (hs : 0 < shares) :
    e._apply_costs price shares "entry"
      = price + (e.commission_per_share
          + price * ((e.slippage_bps + e.market_impact_bps) / 10000)) ∧
    e._apply_costs price shares "exit"
      = price - (e.commission_per_share
          + price * ((e.slippage_bps + e.market_impact_bps) / 10000)) := by
  have hz : (shares : ℚ) ≠ 0 := by
    exact_mod_cast (ne_of_gt hs)
  constructor
  · simp only [BacktestEngine._apply_costs, gt_iff_lt, hs, if_true]
    field_simp
    ring
  · simp only [BacktestEngine._apply_costs, gt_iff_lt, hs, if_true]
    rw [if_neg (by decide : ¬ (("exit" : String) = "entry"))]
    field_simp
    ring

/-- C2: at the daily rollover, `reset_daily` zeroes the daily P&L
before comparing it to the loss limit, so (for any nonnegative equity
and loss limit, whatever the day's realized loss was) the
trading-paused flag always comes out `false`: the pause the claim
describes is never set. -/
theorem C2_reset_daily_never_pauses (rm : RiskManager) (d : ℤ)
    (h1 : 0 ≤ rm.equity) (h2 : 0 ≤ rm.daily_loss_limit_pct) :
    (rm.reset_daily d).trading_paused = false := by
  have hcond : ¬ ((0 : ℚ) < -(rm.equity * rm.daily_loss_limit_pct / 100)) :=
    not_lt.mpr (neg_nonpos.mpr (div_nonneg (mul_nonneg h1 h2) (by norm_num)))
  simp only [RiskManager.reset_daily, apply_ite RiskManager.trading_paused]
  simp [hcond]

/-- C2 witness: a manager that lost 10,000 on the day — four times
the 2.5% limit on 100,000 of equity — still has `trading_paused =
false` after the rollover. -/
theorem C2_witness :
    (rmC2.reset_daily 5).trading_paused = false ∧
    rmC2.daily_pnl < -(rmC2.equity * rmC2.daily_loss_limit_pct / 100) :=
  ⟨C2_reset_daily_never_pauses rmC2 5 (by decide) (by decide), by decide⟩

/-- C3: a manager whose equity sits 20% below its peak — beyond the
18% max-drawdown limit — still passes `can_enter_trade`, because
`get_current_drawdown` returns the signed value −20, which is never
greater than the positive limit: the drawdown gate is dead code. -/
theorem C3_drawdown_check_dead :
    rmC3.can_enter_trade 1 100 2 = true ∧
    (rmC3.peak_equity - rmC3.equity) / rmC3.peak_equity * 100 > rmC3.max_drawdown_pct ∧
    rmC3.get_current_drawdown = -20 := by
  refine ⟨by decide, by decide, by decide⟩

/-- C6: `calculate_size` returns `floor(max(0, equity ×
(perTradeRiskPct/100) / (atr × stopMultiplier) × sizeMultiplier))`
when the stop distance is positive and 0 otherwise; with equity
100,000, 1% risk, ATR 2, stop multiplier 2.5 and size multiplier 1 it
returns exactly 200 shares. -/
theorem C6_calculate_size :
    (∀ (ps : PositionSizer) (price atr equity mult sm : ℚ),
      ps.calculate_size price atr equity mult (some sm) =
        if 0 < atr * sm then
          ⌊max 0 (equity * (ps.per_trade_risk_pct / 100) / (atr * sm) * mult)⌋
        else 0) ∧
    PositionSizer.calculate_size ⟨100000, 1, 5/2⟩ 100 2 100000 1 (some (5/2)) = 200 := by
  constructor
  · intro ps price atr equity mult sm
    unfold PositionSizer.calculate_size
    simp only [Option.getD_some]
    split_ifs with h
    · exact max_pytrunc_eq_floor_max _
    · simp [pytrunc]
  · decide

/-- C7 (amended): for every entry and exit with a positive share
count, the applied cost-per-share equals commission-per-share + price
× (slippageBps + marketImpactBps)/10000, and it is added on entry and
subtracted on exit regardless of the trade's direction — which
worsens a long's prices but improves a short's. -/
theorem C7_amended (e : BacktestEngine) (price : ℚ) (shares : ℤ) (hs : 0 < shares) :
    e._apply_costs price shares "entry"
      = price + (e.commission_per_share
          + price * ((e.slippage_bps + e.market_impact_bps) / 10000)) ∧
    e._apply_costs price shares "exit"
      = price - (e.commission_per_share
          + price * ((e.slippage_bps + e.market_impact_bps) / 10000)) :=
  apply_costs_spec e price shares hs

/-- C7 witness: the cost formula evaluated at price 100, 10 shares,
with 0.01 commission, 50 bps slippage and 20 bps impact. -/
theorem C7_witness :
    eC10._apply_costs 100 10 "entry"
      = 100 + (eC10.commission_per_share
          + 100 * ((eC10.slippage_bps + eC10.market_impact_bps) / 10000)) ∧
    eC10._apply_costs 100 10 "exit"
      = 100 - (eC10.commission_per_share
          + 100 * ((eC10.slippage_bps + eC10.market_impact_bps) / 10000)) :=
  C7_amended eC10 100 10 (by decide)

/-- C7 counterexample: in a run whose strategy signals short at the
bar-50 close of 100 under 50 bps slippage, the recorded short entry
price is 100.5 — the engine adds the cost on entry for shorts too
(a price improvement for the short), where the claim requires the
cost-worsened 99.5. -/
theorem C7_counterexample :
    esC7.risk_manager.positions.map (fun t => (t.signal, t.entry_price))
      = [(-1, 201/2)] ∧
    (100 : ℚ) - 100 * ((50 : ℚ) / 10000) = 199/2 ∧
    ¬ ((201 : ℚ)/2 = 199/2) := by
  refine ⟨by decide, by decide, by decide⟩

/-- C9: for every price table missing one of the open, high, low,
close, volume columns, `TrendEMAStrategy.generate_signals` fails with
the missing-columns error (`validate_data`'s `ValueError`, the
`MissingColumnError` of the specification) instead of returning a
signal series. -/
theorem C9_missing_columns_raise (cfg : TrendEMAConfig) (df : DataFrame)
    (h : ∃ c ∈ ["open", "high", "low", "close", "volume"], ¬ df.columns.contains c) :
    ∃ missing, missing ≠ [] ∧
      TrendEMAStrategy.generate_signals cfg df
        = Except.error (BTError.missingColumns missing) := by
  obtain ⟨c, hc, hnc⟩ := h
  have hmem : c ∈ (["open", "high", "low", "close", "volume"]).filter
      (fun c => ! df.columns.contains c) :=
    List.mem_filter.mpr ⟨hc, by simpa using hnc⟩
  have hm : (["open", "high", "low", "close", "volume"]).filter
      (fun c => ! df.columns.contains c) ≠ [] :=
    List.ne_nil_of_mem hmem
  refine ⟨_, hm, ?_⟩
  have hval : BaseStrategy.validate_data df
      = Except.error (BTError.missingColumns
          ((["open", "high", "low", "close", "volume"]).filter
            (fun c => ! df.columns.contains c))) := by
    simp only [BaseStrategy.validate_data]
    rw [if_pos hm]
  simp only [TrendEMAStrategy.generate_signals, hval]
  rfl

/-- C9 witness: a table with only an `open` column makes
`generate_signals` raise the missing-columns error. -/
theorem C9_witness :
    ∃ missing, missing ≠ [] ∧
      TrendEMAStrategy.generate_signals {} dfC9
        = Except.error (BTError.missingColumns missing) :=
  C9_missing_columns_raise {} dfC9 ⟨"close", by decide, by decide⟩

/-- C10: exit trading costs touch only the logged trade record:
`force_exit` realizes the raw-exit-price P&L into equity, while
`_log_trade` writes the cost-adjusted exit price and P&L into the
log, and whenever the per-share cost is positive and the trade holds
shares the two P&L figures differ. -/
theorem C10_exit_costs_only_in_log :
    (∀ (rm : RiskManager) (t : Trade) (d : ℕ) (p : ℚ) (reason : String),
      (rm.force_exit t d p reason).2.equity = rm.equity + t.calculate_pnl p) ∧
    (∀ (e : BacktestEngine) (t : Trade) (cp ep : ℚ), t.exit_price = some ep →
      ∃ rec, (e._log_trade t cp).trade_log = e.trade_log ++ [rec] ∧
        rec.exit_price = e._apply_costs ep t.shares "exit" ∧
        rec.pnl = t.calculate_pnl (e._apply_costs ep t.shares "exit")) ∧
    (∀ (e : BacktestEngine) (t : Trade) (ep : ℚ), 0 < t.shares →
      0 < e.commission_per_share + ep * ((e.slippage_bps + e.market_impact_bps) / 10000) →
      t.calculate_pnl (e._apply_costs ep t.shares "exit") ≠ t.calculate_pnl ep) := by
  refine ⟨?_, ?_, ?_⟩
  · intro rm t d p reason
    rfl
  · intro e t cp ep h
    unfold BacktestEngine._log_trade
    rw [h]
    exact ⟨_, rfl, rfl, rfl⟩
  · intro e t ep hs hc
    have hexit := (apply_costs_spec e ep t.shares hs).2
    rw [hexit]
    have hsh : (0 : ℚ) < (t.shares : ℚ) := by exact_mod_cast hs
    unfold Trade.calculate_pnl
    split_ifs with hsig
    · intro heq
      have h2 : (e.commission_per_share
          + ep * ((e.slippage_bps + e.market_impact_bps) / 10000)) * (t.shares : ℚ) = 0 := by
        linear_combination -heq
      exact absurd h2 (ne_of_gt (mul_pos hc hsh))
    · intro heq
      have h2 : (e.commission_per_share
          + ep * ((e.slippage_bps + e.market_impact_bps) / 10000)) * (t.shares : ℚ) = 0 := by
        linear_combination heq
      exact absurd h2 (ne_of_gt (mul_pos hc hsh))

/-- C10 witness: a long of 10 shares entered at 100, force-exited at
90, adds exactly −100 to equity, while under 0.01 commission, 50 bps
slippage and 20 bps impact the logged record carries exit price 89.36
and P&L −106.4 ≠ −100. -/
theorem C10_witness :
    ((RiskManager.init {}).force_exit tC10 7 90 "stop_loss").2.equity
      = (RiskManager.init {}).equity + tC10.calculate_pnl 90 ∧
    (∃ rec, (eC10._log_trade tC10x 80).trade_log = eC10.trade_log ++ [rec] ∧
      rec.exit_price = eC10._apply_costs 90 tC10x.shares "exit" ∧
      rec.pnl = tC10x.calculate_pnl (eC10._apply_costs 90 tC10x.shares "exit")) ∧
    tC10x.calculate_pnl (eC10._apply_costs 90 tC10x.shares "exit")
      ≠ tC10x.calculate_pnl 90 :=
  ⟨C10_exit_costs_only_in_log.1 (RiskManager.init {}) tC10 7 90 "stop_loss",
   C10_exit_costs_only_in_log.2.1 eC10 tC10x 80 90 (by decide),
   C10_exit_costs_only_in_log.2.2 eC10 tC10x 90 (by decide) (by decide)⟩

/-- C1 counterexample: in the concrete run `esC1` a long entered at 11
rides its stop to an exit price of exactly 0; `force_exit` realizes
−990 into equity, but the equity value appended for that bar is
100,000 because `_calculate_current_equity` skips closed trades whose
exit price is the Python-falsy 0.0, while the claimed formula gives
99,010. -/
theorem C1_counterexample :
    esC1.equity_curve.getLast? = some 100000 ∧
    specEquity esC1.risk_manager.initial_capital esC1.risk_manager.closed_trades
      esC1.risk_manager.positions 6 = 99010 ∧
    ¬ ((100000 : ℚ) = 99010) := by
  refine ⟨by decide, by decide, by decide⟩

/-- C4 counterexample: after the run `esC4`, the trade liquidated by
the end-of-simulation block carries `exit_reason = "end_of_backtest"`
and an exit price, yet it is still in the open-position list and the
closed-trade list is empty — it was neither removed nor appended. -/
theorem C4_counterexample :
    esC4.risk_manager.positions.map Trade.exit_reason = ["end_of_backtest"] ∧
    esC4.risk_manager.positions.map Trade.exit_price = [some 100] ∧
    esC4.risk_manager.closed_trades = [] := by
  refine ⟨by decide, by decide, by decide⟩

/-- C8 counterexample: with pyramiding enabled, `pyramid_max_adds = 1`
and threshold list [1], the run `esC8` holds two concurrent open
trades of the same direction and strategy after bar 51 — more than
`pyramid_max_adds`. -/
theorem C8_counterexample :
    countSame esC8.risk_manager.positions 1 "S" = 2 ∧
    esC8.risk_manager.pyramid_max_adds = 1 ∧ ¬ ((2 : ℕ) ≤ 1) := by
  refine ⟨by decide, by decide, by decide⟩

/-- `update_trailing_stop` only tightens: `max` with the old stop for
longs, `min` for shorts. -/
theorem update_trailing_stop_mono (t : Trade) (cp atr dm : ℚ) :
    (0 < t.signal → t.trailing_stop ≤ (t.update_trailing_stop cp atr dm).trailing_stop) ∧
    (¬ 0 < t.signal → (t.update_trailing_stop cp atr dm).trailing_stop ≤ t.trailing_stop) := by
  simp only [Trade.update_trailing_stop]
  constructor <;> intro hsig
  · rw [if_pos hsig]
    exact le_max_left _ _
  · rw [if_neg hsig]
    exact min_le_left _ _

/-- The per-trade mutation of `update_positions` respects the
trailing-stop relation with the original trade. -/
theorem updateOneTrade_trailingRel (rm : RiskManager) (cp atr : ℚ) (t : Trade) :
    trailingRel t (rm.updateOneTrade cp atr t) := by
  unfold trailingRel
  constructor <;> intro hsig
  · simp only [RiskManager.updateOneTrade, Trade.update_trailing_stop,
      apply_ite Trade.trailing_stop, ite_self, hsig, if_true, gt_iff_lt]
    split_ifs <;> simp [le_max_left]
  · have hsig' : ¬ (0 < t.signal) := by omega
    simp only [RiskManager.updateOneTrade, Trade.update_trailing_stop,
      apply_ite Trade.trailing_stop, ite_self, hsig', if_false, gt_iff_lt]
    split_ifs <;> simp [min_le_left]

/-- The per-trade mutation of `update_positions` never changes a
trade's identity, direction, strategy or exit fields. -/
theorem updateOneTrade_key (rm : RiskManager) (cp atr : ℚ) (t : Trade) :
    (rm.updateOneTrade cp atr t).id = t.id ∧
    (rm.updateOneTrade cp atr t).signal = t.signal ∧
    (rm.updateOneTrade cp atr t).strategy = t.strategy ∧
    (rm.updateOneTrade cp atr t).exit_reason = t.exit_reason ∧
    (rm.updateOneTrade cp atr t).exit_price = t.exit_price := by
  refine ⟨?_, ?_, ?_, ?_, ?_⟩
  all_goals
    simp [RiskManager.updateOneTrade, Trade.update_trailing_stop,
      apply_ite Trade.id, apply_ite Trade.signal, apply_ite Trade.strategy,
      apply_ite Trade.exit_reason, apply_ite Trade.exit_price, ite_self]

/-- `updatePositionsStep` unfolded to its two outcomes. -/
theorem updatePositionsStep_eq (date : ℕ) (cp atr high low : ℚ)
    (acc : RiskManager × List Trade) (a : Trade) :
    RiskManager.updatePositionsStep date cp atr high low acc a =
      match (acc.1.setTrade (acc.1.updateOneTrade cp atr a)).exitDecision cp high low
          (acc.1.updateOneTrade cp atr a) with
      | some re =>
          (((acc.1.setTrade (acc.1.updateOneTrade cp atr a)).force_exit
              (acc.1.updateOneTrade cp atr a) date re.2 re.1).2,
            acc.2 ++ [((acc.1.setTrade (acc.1.updateOneTrade cp atr a)).force_exit
              (acc.1.updateOneTrade cp atr a) date re.2 re.1).1])
      | none => (acc.1.setTrade (acc.1.updateOneTrade cp atr a), acc.2) := rfl

/-- Any trade in the open list after one iteration of the
`update_positions` loop is either the processed trade (with its
updated trailing stop and the processed trade's id) or an untouched
member of the previous open list. -/
theorem updatePositionsStep_mem (date : ℕ) (cp atr high low : ℚ)
    (acc : RiskManager × List Trade) (a : Trade) :
    ∀ v ∈ (RiskManager.updatePositionsStep date cp atr high low acc a).1.positions,
      (v.trailing_stop = (acc.1.updateOneTrade cp atr a).trailing_stop ∧ v.id = a.id)
        ∨ v ∈ acc.1.positions := by
  intro v hv
  rw [updatePositionsStep_eq] at hv
  set t2 := acc.1.updateOneTrade cp atr a with ht2
  rcases hmatch : (acc.1.setTrade t2).exitDecision cp high low t2 with _ | re
  · rw [hmatch] at hv
    simp only [RiskManager.setTrade, List.mem_map] at hv
    obtain ⟨w, hw, rfl⟩ := hv
    by_cases h : w.id = t2.id
    · rw [if_pos h]
      refine Or.inl ⟨rfl, ?_⟩
      rw [ht2]
      exact (updateOneTrade_key acc.1 cp atr a).1
    · rw [if_neg h]
      exact Or.inr hw
  · rw [hmatch] at hv
    simp only [RiskManager.force_exit, RiskManager.setTrade, List.mem_map] at hv
    obtain ⟨w, hw, rfl⟩ := hv
    have hwbase : w ∈ acc.1.positions.map
        (fun u => if u.id = t2.id then t2 else u) := by
      split_ifs at hw with hany
      · exact (List.eraseP_sublist _).mem hw
      · exact hw
    by_cases h : w.id = t2.id
    · rw [if_pos h]
      refine Or.inl ⟨rfl, ?_⟩
      rw [ht2]
      exact (updateOneTrade_key acc.1 cp atr a).1
    · rw [if_neg h]
      simp only [List.mem_map] at hwbase
      obtain ⟨w0, hw0, rfl⟩ := hwbase
      by_cases h0 : w0.id = t2.id
      · rw [if_pos h0] at h
        exact absurd rfl h
      · rw [if_neg h0]
        exact Or.inr hw0

/-- C5: across a call to `update_positions` the trailing stop of any
surviving open trade moves only in the favorable direction: it never
decreases for a long and never increases for a short.  (Applied to
consecutive bars this gives bar-over-bar monotonicity, since the
trailing stop is mutated nowhere else while a trade is open.) -/
theorem C5_trailing_stop_monotone (rm : RiskManager) (date : ℕ)
    (cp atr high low : ℚ) (t u : Trade)
    (hnd : (rm.positions.map Trade.id).Nodup)
    (ht : t ∈ rm.positions)
    (hu : u ∈ (rm.update_positions date cp atr high low).1.positions)
    (hid : u.id = t.id) :
    (0 < t.signal → t.trailing_stop ≤ u.trailing_stop) ∧
    (t.signal < 0 → u.trailing_stop ≤ t.trailing_stop) := by
  have hinj : ∀ a ∈ rm.positions, a.id = t.id → a = t :=
    fun a ha haid => List.inj_on_of_nodup_map hnd ha ht haid
  have main : ∀ v ∈ (rm.update_positions date cp atr high low).1.positions,
      v.id = t.id → trailingRel t v := by
    unfold RiskManager.update_positions
    refine List.foldlRecOn
      (motive := fun acc : RiskManager × List Trade =>
        ∀ v ∈ acc.1.positions, v.id = t.id → trailingRel t v)
      rm.positions _ (rm, []) ?_ ?_
    · intro v hv hvid
      have := hinj v hv hvid
      subst this
      exact ⟨fun _ => le_rfl, fun _ => le_rfl⟩
    · intro acc hacc a ha v hv hvid
      rcases updatePositionsStep_mem date cp atr high low acc a v hv with ⟨htr, hida⟩ | hmem
      · have ha2 : a = t := hinj a ha (by rw [← hida, hvid])
        subst ha2
        unfold trailingRel
        rw [htr]
        exact updateOneTrade_trailingRel acc.1 cp atr a
      · exact hacc v hmem hvid
  exact main u hu hid

/-- C5 witness: a long entered at 100 with stop 95 has its trailing
stop raised to 108 by an update at price 110 with ATR 2, and
108 ≥ 95. -/
theorem C5_witness :
    (0 < tC5.signal → tC5.trailing_stop ≤ uC5.trailing_stop) ∧
    (tC5.signal < 0 → uC5.trailing_stop ≤ tC5.trailing_stop) :=
  C5_trailing_stop_monotone rmC5 1 110 2 111 109 tC5 uC5
    (by decide) (by decide) (by decide) (by decide)

/-- `_log_trade` only appends to the trade log. -/
theorem log_trade_equity_curve (e : BacktestEngine) (t : Trade) (cp : ℚ) :
    (e._log_trade t cp).equity_curve = e.equity_curve := by
  unfold BacktestEngine._log_trade
  split <;> rfl

theorem trendBreakStep_equity_curve (i : ℕ) (row : Bar) (name : String)
    (acc : BacktestEngine × List Trade) (t : Trade) :
    (BacktestEngine.trendBreakStep i row name acc t).1.equity_curve
      = acc.1.equity_curve := by
  unfold BacktestEngine.trendBreakStep
  split <;> rfl

theorem trendBreakExits_equity_curve (i : ℕ) (row : Bar)
    (acc : BacktestEngine × List Trade) (strat : StratSpec) :
    (BacktestEngine.trendBreakExits i row acc strat).1.equity_curve
      = acc.1.equity_curve := by
  simp only [BacktestEngine.trendBreakExits]
  split
  · refine List.foldlRecOn
      (motive := fun acc2 : BacktestEngine × List Trade =>
        acc2.1.equity_curve = acc.1.equity_curve) _ _ acc rfl ?_
    intro b hb a _
    rw [trendBreakStep_equity_curve]
    exact hb
  · rfl

set_option maxHeartbeats 800000 in
theorem processStrategySignal_equity_curve (params : EngineParams)
    (bars : List Bar) (i : ℕ) (row : Bar) (e : BacktestEngine)
    (strat : StratSpec) :
    (BacktestEngine.processStrategySignal params bars i row e strat).equity_curve
      = e.equity_curve := by
  simp only [BacktestEngine.processStrategySignal]
  repeat' split
  all_goals rfl

theorem trendBreakFold_equity_curve (i : ℕ) (row : Bar)
    (l : List StratSpec) (acc : BacktestEngine × List Trade) :
    (l.foldl (BacktestEngine.trendBreakExits i row) acc).1.equity_curve
      = acc.1.equity_curve := by
  refine List.foldlRecOn
    (motive := fun acc2 : BacktestEngine × List Trade =>
      acc2.1.equity_curve = acc.1.equity_curve) _ _ acc rfl ?_
  intro b hb a _
  rw [trendBreakExits_equity_curve]
  exact hb

theorem logFold_equity_curve (cp : ℚ) (l : List Trade) (e : BacktestEngine) :
    (l.foldl (fun e t => e._log_trade t cp) e).equity_curve = e.equity_curve := by
  refine List.foldlRecOn
    (motive := fun e2 : BacktestEngine => e2.equity_curve = e.equity_curve) _ _ e rfl ?_
  intro b hb a _
  rw [log_trade_equity_curve]
  exact hb

theorem signalFold_equity_curve (params : EngineParams) (bars : List Bar)
    (i : ℕ) (row : Bar) (l : List StratSpec) (e : BacktestEngine) :
    (l.foldl (BacktestEngine.processStrategySignal params bars i row) e).equity_curve
      = e.equity_curve := by
  refine List.foldlRecOn
    (motive := fun e2 : BacktestEngine => e2.equity_curve = e.equity_curve) _ _ e rfl ?_
  intro b hb a _
  rw [processStrategySignal_equity_curve]
  exact hb

/-- Nothing before the equity mark of a bar touches the equity curve. -/
theorem barCore_equity_curve (params : EngineParams) (bars : List Bar)
    (e : BacktestEngine) (i : ℕ) (row : Bar) :
    (BacktestEngine.barCore params bars e i row).equity_curve = e.equity_curve := by
  unfold BacktestEngine.barCore
  rw [signalFold_equity_curve, logFold_equity_curve, trendBreakFold_equity_curve]

/-- `_calculate_current_equity` computes the claimed formula whenever
every closed trade has a nonzero recorded exit price. -/
theorem calculate_current_equity_spec (e : BacktestEngine) (cp : ℚ)
    (positions : List Trade)
    (h : ∀ t ∈ e.risk_manager.closed_trades, t.exit_price ≠ none ∧ t.exit_price ≠ some 0) :
    e._calculate_current_equity cp positions =
      specEquity e.risk_manager.initial_capital e.risk_manager.closed_trades
        positions cp := by
  unfold BacktestEngine._calculate_current_equity specEquity
  have hmap : e.risk_manager.closed_trades.map (fun t =>
      match t.exit_price with
      | some ep => if ep ≠ 0 then t.calculate_pnl ep else 0
      | none => 0)
      = e.risk_manager.closed_trades.map (fun t => t.calculate_pnl (t.exit_price.getD 0)) := by
    refine List.map_congr_left ?_
    intro t ht
    rcases hep : t.exit_price with _ | ep
    · exact absurd hep (h t ht).1
    · have hne : ep ≠ 0 := by
        intro h0
        exact (h t ht).2 (by rw [hep, h0])
      simp [hep, hne]
  rw [hmap]

/-- C1 (amended): the equity value appended to the curve for a bar
equals initial capital + Σ realized P&L of closed trades + Σ
unrealized P&L of open trades at the bar's close — where the trade
lists are those after the bar's updates, exits and entries — provided
every closed trade's recorded exit price is nonzero (the engine's
recomputation skips closed trades whose exit price is exactly 0). -/
theorem C1_amended (params : EngineParams) (bars : List Bar) (i : ℕ)
    (row : Bar) (e : BacktestEngine)
    (h : ∀ t ∈ (BacktestEngine.barCore params bars e i row).risk_manager.closed_trades,
        t.exit_price ≠ none ∧ t.exit_price ≠ some 0) :
    (BacktestEngine.barStep params bars e i row).equity_curve =
      e.equity_curve ++ [specEquity
        (BacktestEngine.barCore params bars e i row).risk_manager.initial_capital
        (BacktestEngine.barCore params bars e i row).risk_manager.closed_trades
        (BacktestEngine.barCore params bars e i row).risk_manager.positions
        row.close] := by
  have key : (BacktestEngine.barCore params bars e i row).equity_curve ++
      [(BacktestEngine.barCore params bars e i row)._calculate_current_equity row.close
        (BacktestEngine.barCore params bars e i row).risk_manager.positions]
      = e.equity_curve ++ [specEquity
          (BacktestEngine.barCore params bars e i row).risk_manager.initial_capital
          (BacktestEngine.barCore params bars e i row).risk_manager.closed_trades
          (BacktestEngine.barCore params bars e i row).risk_manager.positions
          row.close] := by
    rw [barCore_equity_curve,
      calculate_current_equity_spec (BacktestEngine.barCore params bars e i row) row.close
        (BacktestEngine.barCore params bars e i row).risk_manager.positions h]
  unfold BacktestEngine.barStep
  split
  · exact key
  · split
    · split
      · exact key
      · exact key
    · exact key

/-- C1 witness: on a bar with no positions and no signals the appended
equity equals the claimed formula (here just the initial capital). -/
theorem C1_amended_witness :
    (BacktestEngine.barStep paramsW barsW (BacktestEngine.start {} 0 0 0) 0 rowW).equity_curve =
      (BacktestEngine.start {} 0 0 0).equity_curve ++ [specEquity
        (BacktestEngine.barCore paramsW barsW (BacktestEngine.start {} 0 0 0) 0 rowW).risk_manager.initial_capital
        (BacktestEngine.barCore paramsW barsW (BacktestEngine.start {} 0 0 0) 0 rowW).risk_manager.closed_trades
        (BacktestEngine.barCore paramsW barsW (BacktestEngine.start {} 0 0 0) 0 rowW).risk_manager.positions
        rowW.close] :=
  C1_amended paramsW barsW 0 rowW (BacktestEngine.start {} 0 0 0) (by decide)

/-- Ids of an id-targeted `eraseP` on trades are the same `eraseP` on
the id list. -/
theorem map_id_eraseP (l : List Trade) (n : ℕ) :
    (l.eraseP (fun u => u.id = n)).map Trade.id
      = (l.map Trade.id).eraseP (fun m => m = n) := by
  induction l with
  | nil => rfl
  | cons a l ih =>
    by_cases h : a.id = n
    · simp [List.eraseP_cons, h]
    · simp [List.eraseP_cons, h, ih]

theorem any_id_iff_mem (l : List Trade) (n : ℕ) :
    (l.any (fun u => u.id = n)) = true ↔ n ∈ l.map Trade.id := by
  rw [List.any_eq_true]
  constructor
  · rintro ⟨u, hu, hid⟩
    exact List.mem_map.mpr ⟨u, hu, of_decide_eq_true hid⟩
  · intro hmem
    obtain ⟨u, hu, hid⟩ := List.mem_map.mp hmem
    exact ⟨u, hu, decide_eq_true hid⟩

/-- Removing the first copy of a present id from the open side and
appending it to the closed side preserves the no-duplicate property
of the combined id list. -/
theorem nodup_eraseP_append (A B : List ℕ) (x : ℕ) (hx : x ∈ A)
    (h : (A ++ B).Nodup) :
    ((A.eraseP (fun m => m = x)) ++ (B ++ [x])).Nodup := by
  obtain ⟨a, l₁, l₂, hl1, hpa, hAeq, hErase⟩ :=
    List.exists_of_eraseP (p := fun m => decide (m = x)) hx (by simp)
  have hax : a = x := of_decide_eq_true hpa
  subst hax
  have h2 : List.Perm (((l₁ ++ l₂) ++ B) ++ [a]) ([a] ++ ((l₁ ++ l₂) ++ B)) :=
    List.perm_append_comm
  have h3 : List.Perm ((a :: (l₁ ++ l₂)) ++ B) ((l₁ ++ a :: l₂) ++ B) :=
    (List.perm_middle).symm.append_right B
  have hperm : List.Perm ((l₁ ++ l₂) ++ (B ++ [a])) ((l₁ ++ a :: l₂) ++ B) := by
    rw [← List.append_assoc]
    exact h2.trans h3
  rw [hErase]
  rw [hAeq] at h
  exact hperm.nodup_iff.mpr h

theorem countSame_eq_countP (l : List Trade) (sig : ℤ) (name : String) :
    countSame l sig name
      = l.countP (fun t => decide (t.signal = sig ∧ t.strategy = name)) :=
  (List.countP_eq_length_filter _ l).symm

theorem setTrade_map_id (rm : RiskManager) (t : Trade) :
    (rm.setTrade t).positions.map Trade.id = rm.positions.map Trade.id := by
  simp only [RiskManager.setTrade, List.map_map]
  refine List.map_congr_left ?_
  intro a _
  by_cases h : a.id = t.id
  · simp [Function.comp, h]
  · simp [Function.comp, h]

theorem setTrade_mem (rm : RiskManager) (t : Trade) :
    ∀ v ∈ (rm.setTrade t).positions, v = t ∨ v ∈ rm.positions := by
  intro v hv
  simp only [RiskManager.setTrade, List.mem_map] at hv
  obtain ⟨w, hw, rfl⟩ := hv
  by_cases h : w.id = t.id
  · rw [if_pos h]
    exact Or.inl rfl
  · rw [if_neg h]
    exact Or.inr hw

theorem setTrade_RmInv (rm : RiskManager) (t : Trade)
    (hid : t.id ∈ rm.positions.map Trade.id) (h : RmInv rm) :
    RmInv (rm.setTrade t) := by
  obtain ⟨hnd, hbound, hclosed⟩ := h
  refine ⟨?_, ?_, hclosed⟩
  · unfold allIds at hnd ⊢
    rw [List.map_append] at hnd ⊢
    rw [setTrade_map_id]
    exact hnd
  · intro v hv
    rcases List.mem_append.mp hv with hvp | hvc
    · rcases setTrade_mem rm t v hvp with rfl | hvm
      · obtain ⟨w, hw, hwid⟩ := List.mem_map.mp hid
        rw [← hwid]
        exact hbound w (List.mem_append.mpr (Or.inl hw))
      · exact hbound v (List.mem_append.mpr (Or.inl hvm))
    · exact hbound v (List.mem_append.mpr (Or.inr hvc))

theorem setTrade_countSame (rm : RiskManager) (t : Trade)
    (hkey : ∀ u ∈ rm.positions, u.id = t.id →
      u.signal = t.signal ∧ u.strategy = t.strategy)
    (sig : ℤ) (name : String) :
    countSame (rm.setTrade t).positions sig name
      = countSame rm.positions sig name := by
  simp only [countSame_eq_countP, RiskManager.setTrade, List.countP_map]
  refine List.countP_congr ?_
  intro u hu
  by_cases h : u.id = t.id
  · obtain ⟨h1, h2⟩ := hkey u hu h
    simp [Function.comp, h, h1, h2]
  · simp [Function.comp, h]

theorem force_exit_closed (rm : RiskManager) (t : Trade) (d : ℕ) (p : ℚ)
    (r : String) :
    (rm.force_exit t d p r).2.closed_trades = rm.closed_trades ++
      [{ t with exit_date := some d, exit_price := some p, exit_reason := r }] := rfl

theorem force_exit_next_id (rm : RiskManager) (t : Trade) (d : ℕ) (p : ℚ)
    (r : String) :
    (rm.force_exit t d p r).2.next_id = rm.next_id := rfl

theorem force_exit_map_id (rm : RiskManager) (t : Trade) (d : ℕ) (p : ℚ)
    (r : String) (hmem : t.id ∈ rm.positions.map Trade.id) :
    (rm.force_exit t d p r).2.positions.map Trade.id
      = (rm.positions.map Trade.id).eraseP (fun m => m = t.id) := by
  simp only [RiskManager.force_exit]
  rw [if_pos ((any_id_iff_mem rm.positions t.id).mpr hmem)]
  rw [List.map_map]
  have : (rm.positions.eraseP (fun u => u.id = t.id)).map
      (Trade.id ∘ fun u => if u.id = t.id
        then { t with exit_date := some d, exit_price := some p, exit_reason := r }
        else u)
      = (rm.positions.eraseP (fun u => u.id = t.id)).map Trade.id := by
    refine List.map_congr_left ?_
    intro a _
    by_cases h : a.id = t.id
    · simp [Function.comp, h]
    · simp [Function.comp, h]
  rw [this, map_id_eraseP]

theorem force_exit_mem (rm : RiskManager) (t : Trade) (d : ℕ) (p : ℚ)
    (r : String) :
    ∀ v ∈ (rm.force_exit t d p r).2.positions,
      v = { t with exit_date := some d, exit_price := some p, exit_reason := r }
        ∨ v ∈ rm.positions := by
  intro v hv
  simp only [RiskManager.force_exit, List.mem_map] at hv
  obtain ⟨w, hw, rfl⟩ := hv
  have hwbase : w ∈ rm.positions := by
    split_ifs at hw with hany
    · exact (List.eraseP_sublist _).mem hw
    · exact hw
  by_cases h : w.id = t.id
  · rw [if_pos h]
    exact Or.inl rfl
  · rw [if_neg h]
    exact Or.inr hwbase

theorem force_exit_RmInv (rm : RiskManager) (t : Trade) (d : ℕ) (p : ℚ)
    (r : String) (h : RmInv rm) (hmem : t.id ∈ rm.positions.map Trade.id)
    (hr : r ≠ "") :
    RmInv (rm.force_exit t d p r).2 := by
  obtain ⟨hnd, hbound, hclosed⟩ := h
  refine ⟨?_, ?_, ?_⟩
  · unfold allIds at hnd ⊢
    rw [List.map_append] at hnd ⊢
    rw [force_exit_map_id rm t d p r hmem, force_exit_closed, List.map_append]
    exact nodup_eraseP_append _ _ t.id hmem hnd
  · intro v hv
    rw [force_exit_next_id]
    obtain ⟨w, hw, hwid⟩ := List.mem_map.mp hmem
    rcases List.mem_append.mp hv with hvp | hvc
    · rcases force_exit_mem rm t d p r v hvp with rfl | hvm
      · show t.id < rm.next_id
        rw [← hwid]
        exact hbound w (List.mem_append.mpr (Or.inl hw))
      · exact hbound v (List.mem_append.mpr (Or.inl hvm))
    · rw [force_exit_closed] at hvc
      rcases List.mem_append.mp hvc with hvc2 | hvc2
      · exact hbound v (List.mem_append.mpr (Or.inr hvc2))
      · rcases List.mem_singleton.mp hvc2 with rfl
        show t.id < rm.next_id
        rw [← hwid]
        exact hbound w (List.mem_append.mpr (Or.inl hw))
  · intro v hv
    rw [force_exit_closed] at hv
    rcases List.mem_append.mp hv with hvc | hvc
    · exact hclosed v hvc
    · rcases List.mem_singleton.mp hvc with rfl
      exact ⟨hr, by simp⟩

theorem force_exit_countSame (rm : RiskManager) (t : Trade) (d : ℕ) (p : ℚ)
    (r : String)
    (hkey : ∀ u ∈ rm.positions, u.id = t.id →
      u.signal = t.signal ∧ u.strategy = t.strategy)
    (sig : ℤ) (name : String) :
    countSame (rm.force_exit t d p r).2.positions sig name
      ≤ countSame rm.positions sig name := by
  simp only [RiskManager.force_exit]
  have hbase : ∀ l, (∀ u ∈ l, u ∈ rm.positions) →
      countSame (l.map (fun u => if u.id = t.id
        then { t with exit_date := some d, exit_price := some p, exit_reason := r }
        else u)) sig name = countSame l sig name := by
    intro l hl
    simp only [countSame_eq_countP, List.countP_map]
    refine List.countP_congr ?_
    intro u hu
    by_cases h : u.id = t.id
    · obtain ⟨h1, h2⟩ := hkey u (hl u hu) h
      simp [Function.comp, h, h1, h2]
    · simp [Function.comp, h]
  split_ifs with hany
  · rw [hbase _ (fun u hu => (List.eraseP_sublist _).mem hu)]
    simp only [countSame_eq_countP]
    exact (List.eraseP_sublist _).countP_le _
  · rw [hbase _ (fun u hu => hu)]

theorem mem_eraseP_of_ne {A : List ℕ} {x y : ℕ} (hx : x ∈ A) (hne : x ≠ y) :
    x ∈ A.eraseP (fun m => m = y) := by
  induction A with
  | nil => cases hx
  | cons a A ih =>
    by_cases h : a = y
    · have hxA : x ∈ A := by
        rcases List.mem_cons.mp hx with rfl | hxa
        · exact absurd h hne
        · exact hxa
      simpa [List.eraseP_cons, h] using hxA
    · rcases List.mem_cons.mp hx with rfl | hxa
      · simp [List.eraseP_cons, h]
      · simp [List.eraseP_cons, h, ih hxa]

/-- `enter_trade` as an equation: it rejects (unchanged manager, no
trade) when `can_enter_trade` fails, and otherwise appends the fresh
trade of `enterResult`. -/
theorem enter_trade_eq (rm : RiskManager) (date : ℕ) (price : ℚ)
    (signal : ℤ) (atr : ℚ) (shares : ℤ) (strategy : String)
    (stop_mult trailing_mult : Option ℚ) (is_pyramid : Bool) :
    rm.enter_trade date price signal atr shares strategy stop_mult
        trailing_mult is_pyramid
    = if rm.can_enter_trade signal price atr then
        (some (rm.enterResult date price signal atr shares strategy
            stop_mult trailing_mult is_pyramid).1,
          (rm.enterResult date price signal atr shares strategy
            stop_mult trailing_mult is_pyramid).2)
      else (none, rm) := by
  simp only [RiskManager.enter_trade, RiskManager.enterResult]
  by_cases h : rm.can_enter_trade signal price atr = true
  · rw [if_neg (not_not_intro h), if_pos h]
  · rw [if_pos h, if_neg h]

/-- What a successful `can_pyramid` implies: pyramiding on, the
existing-adds count strictly below the configured maximum, and the
base trade's R-multiple at or past the selected threshold. -/
theorem can_pyramid_spec (rm : RiskManager) (sig : ℤ) (name : String)
    (t : Trade) (thr : ℚ)
    (h : rm.can_pyramid sig name = some (t, thr)) :
    rm.pyramid_enabled = true ∧
    1 ≤ countSame rm.positions sig name ∧
    countSame rm.positions sig name - 1 < rm.pyramid_max_adds ∧
    thr = (if rm.pyramid_add_thresholds ≠ [] then
        rm.pyramid_add_thresholds.getD
          (min (countSame rm.positions sig name - 1)
            (rm.pyramid_add_thresholds.length - 1)) 0
      else (3/2) * ((countSame rm.positions sig name - 1 : ℕ) + 1)) ∧
    t.current_r_multiple ≥ thr := by
  have hcount : countSame rm.positions sig name
      = (rm.positions.filter
          (fun u => decide (u.signal = sig ∧ u.strategy = name))).length := rfl
  simp only [RiskManager.can_pyramid] at h
  split_ifs at h with hen hcnt hthr hthr
  all_goals try cases h
  all_goals split at h
  all_goals try cases h
  all_goals split_ifs at h with hr
  all_goals try cases h
  · rename_i x heq
    have hlen : 1 ≤ countSame rm.positions sig name := by
      rw [hcount]
      refine List.length_pos.mpr ?_
      intro hnil
      rw [hnil] at heq
      cases heq
    refine ⟨hen, hlen, by rw [hcount] at *; omega, ?_, hr⟩
    rw [if_pos hthr, hcount]
  · rename_i x heq
    have hlen : 1 ≤ countSame rm.positions sig name := by
      rw [hcount]
      refine List.length_pos.mpr ?_
      intro hnil
      rw [hnil] at heq
      cases heq
    refine ⟨hen, hlen, by rw [hcount] at *; omega, ?_, hr⟩
    rw [if_neg hthr, hcount]

/-- Stops fired by `update_positions` always carry a nonempty reason. -/
theorem exitDecision_reason (rm : RiskManager) (cp high low : ℚ) (t : Trade)
    (re : String × ℚ) (h : rm.exitDecision cp high low t = some re) :
    re.1 ≠ "" := by
  simp only [RiskManager.exitDecision] at h
  split_ifs at h <;> first
    | (injection h with h2; subst h2; simp)
    | cases h

/-- `can_enter_trade` ignores its price and ATR arguments (they are
accepted but unused by the source body). -/
theorem can_enter_trade_irrel (rm : RiskManager) (signal : ℤ)
    (p a q b : ℚ) :
    rm.can_enter_trade signal p a = rm.can_enter_trade signal q b := rfl

theorem countSame_append_single (l : List Trade) (t : Trade) (sig : ℤ)
    (name : String) :
    countSame (l ++ [t]) sig name
      = countSame l sig name
        + (if t.signal = sig ∧ t.strategy = name then 1 else 0) := by
  simp only [countSame_eq_countP, List.countP_append, List.countP_cons,
    List.countP_nil]
  by_cases hm : t.signal = sig ∧ t.strategy = name
  · simp [hm]
  · simp [hm]

theorem pyramidBound_congr (rm' rm : RiskManager)
    (hen : rm'.pyramid_enabled = rm.pyramid_enabled)
    (hmax : rm'.pyramid_max_adds = rm.pyramid_max_adds) :
    pyramidBound rm' = pyramidBound rm := by
  unfold pyramidBound
  rw [hen, hmax]

/-- The engine invariant only reads the two trade lists, the identity
supply and the pyramid switches, so it transfers along equality of
those fields. -/
theorem EngineInv_congr (cfg : RiskConfig) (rm rm' : RiskManager)
    (hpos : rm'.positions = rm.positions)
    (hcl : rm'.closed_trades = rm.closed_trades)
    (hnext : rm'.next_id = rm.next_id)
    (hen : rm'.pyramid_enabled = rm.pyramid_enabled)
    (hmax : rm'.pyramid_max_adds = rm.pyramid_max_adds)
    (h : EngineInv cfg rm) : EngineInv cfg rm' := by
  obtain ⟨⟨⟨hnd, hbound, hclosed⟩, hcnt⟩, hfe, hfm⟩ := h
  refine ⟨⟨⟨?_, ?_, ?_⟩, ?_⟩, ?_, ?_⟩
  · unfold allIds at hnd ⊢
    rw [hpos, hcl]
    exact hnd
  · intro t ht
    rw [hpos, hcl] at ht
    rw [hnext]
    exact hbound t ht
  · intro t ht
    rw [hcl] at ht
    exact hclosed t ht
  · intro sig name
    rw [hpos, pyramidBound_congr rm' rm hen hmax]
    exact hcnt sig name
  · rw [hen]
    exact hfe
  · rw [hmax]
    exact hfm

/-- `reset_daily` leaves the trade lists, the identity supply and the
pyramid switches untouched. -/
theorem reset_daily_fields (rm : RiskManager) (d : ℤ) :
    (rm.reset_daily d).positions = rm.positions ∧
    (rm.reset_daily d).closed_trades = rm.closed_trades ∧
    (rm.reset_daily d).next_id = rm.next_id ∧
    (rm.reset_daily d).pyramid_enabled = rm.pyramid_enabled ∧
    (rm.reset_daily d).pyramid_max_adds = rm.pyramid_max_adds := by
  simp only [RiskManager.reset_daily]
  split_ifs <;> exact ⟨rfl, rfl, rfl, rfl, rfl⟩

/-- Appending a trade carrying the fresh id `next_id` (as `enter_trade`
does) preserves the bookkeeping invariant. -/
theorem RmInv_of_append_fresh (rm rm' : RiskManager) (T : Trade)
    (hpos : rm'.positions = rm.positions ++ [T])
    (hcl : rm'.closed_trades = rm.closed_trades)
    (hnext : rm'.next_id = rm.next_id + 1)
    (hTid : T.id = rm.next_id)
    (h : RmInv rm) : RmInv rm' := by
  obtain ⟨hnd, hbound, hclosed⟩ := h
  refine ⟨?_, ?_, ?_⟩
  · unfold allIds at hnd ⊢
    rw [hpos, hcl]
    rw [List.map_append] at hnd
    rw [List.map_append, List.map_append]
    have hTnotin : T.id ∉ rm.positions.map Trade.id
        ++ rm.closed_trades.map Trade.id := by
      intro hmem
      rw [← List.map_append] at hmem
      obtain ⟨w, hw, hwid⟩ := List.mem_map.mp hmem
      have := hbound w hw
      omega
    rw [List.append_assoc, List.map_singleton, List.singleton_append,
      List.nodup_middle, List.nodup_cons]
    exact ⟨hTnotin, hnd⟩
  · intro v hv
    rw [hpos, hcl] at hv
    rw [hnext]
    rcases List.mem_append.mp hv with hvp | hvc
    · rcases List.mem_append.mp hvp with hvp2 | hvp2
      · have := hbound v (List.mem_append.mpr (Or.inl hvp2))
        omega
      · rcases List.mem_singleton.mp hvp2 with rfl
        omega
    · have := hbound v (List.mem_append.mpr (Or.inr hvc))
      omega
  · intro v hv
    rw [hcl] at hv
    exact hclosed v hv

/-- A fresh manager satisfies the engine invariant of its own config. -/
theorem init_EngineInv (cfg : RiskConfig) :
    EngineInv cfg (RiskManager.init cfg) := by
  refine ⟨⟨⟨?_, ?_, ?_⟩, ?_⟩, rfl, rfl⟩
  · exact List.nodup_nil
  · intro t ht
    cases ht
  · intro t ht
    cases ht
  · intro sig name
    exact Nat.zero_le _

/-- `_log_trade` never touches the risk manager. -/
theorem log_trade_rm (e : BacktestEngine) (t : Trade) (cp : ℚ) :
    (e._log_trade t cp).risk_manager = e.risk_manager := by
  simp only [BacktestEngine._log_trade]
  split <;> rfl

theorem logFold_rm (cp : ℚ) (l : List Trade) (e : BacktestEngine) :
    (l.foldl (fun e t => e._log_trade t cp) e).risk_manager
      = e.risk_manager := by
  induction l generalizing e with
  | nil => rfl
  | cons a l ih => rw [List.foldl_cons, ih, log_trade_rm]

/-- The end-of-run liquidation step never appends to the closed list. -/
theorem endStep_closed (l : ℕ) (p : ℚ) (e : BacktestEngine) (t : Trade) :
    (BacktestEngine.endStep l p e t).risk_manager.closed_trades
      = e.risk_manager.closed_trades := by
  simp only [BacktestEngine.endStep]
  rw [log_trade_rm]
  rfl

/-- The end-of-run liquidation step only rewrites (in place) the entry
of the open list carrying the liquidated id. -/
theorem endStep_positions (l : ℕ) (p : ℚ) (e : BacktestEngine) (t : Trade) :
    (BacktestEngine.endStep l p e t).risk_manager.positions
      = e.risk_manager.positions.map (fun u => if u.id = t.id then
          { t with exit_date := some l, exit_price := some p,
                   exit_reason := "end_of_backtest" } else u) := by
  simp only [BacktestEngine.endStep]
  rw [log_trade_rm]
  rfl

theorem endFold_closed (l : ℕ) (p : ℚ) :
    ∀ (todo : List Trade) (e : BacktestEngine),
      (todo.foldl (BacktestEngine.endStep l p) e).risk_manager.closed_trades
        = e.risk_manager.closed_trades := by
  intro todo
  induction todo with
  | nil =>
    intro e
    rfl
  | cons t todo ih =>
    intro e
    rw [List.foldl_cons, ih, endStep_closed]

/-- After the end-of-run liquidation loop every open trade whose id was
in the remaining work list carries the reason `end_of_backtest`. -/
theorem endFold_reason (l : ℕ) (p : ℚ) :
    ∀ (todo : List Trade) (e : BacktestEngine),
      (∀ u ∈ e.risk_manager.positions, u.id ∉ todo.map Trade.id →
        u.exit_reason = "end_of_backtest") →
      ∀ u ∈ (todo.foldl (BacktestEngine.endStep l p) e).risk_manager.positions,
        u.exit_reason = "end_of_backtest" := by
  intro todo
  induction todo with
  | nil =>
    intro e h u hu
    exact h u hu (by simp)
  | cons t todo ih =>
    intro e h
    rw [List.foldl_cons]
    refine ih _ ?_
    intro u hu hunin
    rw [endStep_positions] at hu
    rcases List.mem_map.mp hu with ⟨w, hw, rfl⟩
    by_cases hid : w.id = t.id
    · rw [if_pos hid]
    · rw [if_neg hid]
      rw [if_neg hid] at hunin
      refine h w hw ?_
      intro hmem
      rw [List.map_cons] at hmem
      rcases List.mem_cons.mp hmem with heq | hmem2
      · exact hid heq
      · exact hunin hmem2

/-- Invariant preservation along the per-trade loop of
`update_positions`: starting from a manager satisfying the bookkeeping
invariant, iterating the loop body over a duplicate-free slice of the
original open list keeps the invariant, never increases any
direction/strategy count, and leaves the pyramid switches alone. -/
theorem updatePositionsFold_inv (date : ℕ) (cp atr high low : ℚ)
    (rm0 : RiskManager) (hnd0 : (rm0.positions.map Trade.id).Nodup) :
    ∀ (todo : List Trade) (acc : RiskManager × List Trade),
      (todo.map Trade.id).Nodup →
      (∀ t ∈ todo, t ∈ rm0.positions) →
      (∀ t ∈ todo, t.id ∈ acc.1.positions.map Trade.id) →
      (∀ u ∈ acc.1.positions, ∃ w, w ∈ rm0.positions ∧
          u.id = w.id ∧ u.signal = w.signal ∧ u.strategy = w.strategy) →
      RmInv acc.1 →
      (∀ sig name, countSame acc.1.positions sig name
          ≤ countSame rm0.positions sig name) →
      RmInv (todo.foldl
        (RiskManager.updatePositionsStep date cp atr high low) acc).1 ∧
      (∀ sig name, countSame (todo.foldl
          (RiskManager.updatePositionsStep date cp atr high low) acc).1.positions
          sig name ≤ countSame rm0.positions sig name) ∧
      (todo.foldl
        (RiskManager.updatePositionsStep date cp atr high low) acc).1.pyramid_enabled
        = acc.1.pyramid_enabled ∧
      (todo.foldl
        (RiskManager.updatePositionsStep date cp atr high low) acc).1.pyramid_max_adds
        = acc.1.pyramid_max_adds := by
  intro todo
  induction todo with
  | nil =>
    intro acc _ _ _ _ hinv hcnt
    exact ⟨hinv, hcnt, rfl, rfl⟩
  | cons a todo ih =>
    intro acc hnd hmem0 hmemA hmaps hinv hcnt
    have ha0 : a ∈ rm0.positions := hmem0 a (List.mem_cons_self a todo)
    have haidA : a.id ∈ acc.1.positions.map Trade.id :=
      hmemA a (List.mem_cons_self a todo)
    rw [List.map_cons] at hnd
    have hndtail : (todo.map Trade.id).Nodup := hnd.of_cons
    have hanotin : a.id ∉ todo.map Trade.id := (List.nodup_cons.mp hnd).1
    have hkey := updateOneTrade_key acc.1 cp atr a
    have ht2idA : (acc.1.updateOneTrade cp atr a).id
        ∈ acc.1.positions.map Trade.id := by
      rw [hkey.1]
      exact haidA
    have hkeyA : ∀ u ∈ acc.1.positions,
        u.id = (acc.1.updateOneTrade cp atr a).id →
        u.signal = (acc.1.updateOneTrade cp atr a).signal ∧
        u.strategy = (acc.1.updateOneTrade cp atr a).strategy := by
      intro u hu huid
      obtain ⟨w, hw0, hwid, hwsig, hwstr⟩ := hmaps u hu
      have hwa : w = a := by
        refine List.inj_on_of_nodup_map hnd0 hw0 ha0 ?_
        rw [← hwid, huid, hkey.1]
      subst hwa
      rw [hkey.2.1, hkey.2.2.1]
      exact ⟨hwsig, hwstr⟩
    have hinvB : RmInv (acc.1.setTrade (acc.1.updateOneTrade cp atr a)) :=
      setTrade_RmInv acc.1 _ ht2idA hinv
    have hcntB : ∀ sig name,
        countSame (acc.1.setTrade (acc.1.updateOneTrade cp atr a)).positions
          sig name = countSame acc.1.positions sig name :=
      fun sig name => setTrade_countSame acc.1 _ hkeyA sig name
    have hidsB : (acc.1.setTrade (acc.1.updateOneTrade cp atr a)).positions.map
        Trade.id = acc.1.positions.map Trade.id := setTrade_map_id acc.1 _
    have hmapsB : ∀ u ∈ (acc.1.setTrade (acc.1.updateOneTrade cp atr a)).positions,
        ∃ w, w ∈ rm0.positions ∧ u.id = w.id ∧ u.signal = w.signal ∧
          u.strategy = w.strategy := by
      intro u hu
      rcases setTrade_mem acc.1 _ u hu with rfl | hmem
      · exact ⟨a, ha0, hkey.1, hkey.2.1, hkey.2.2.1⟩
      · exact hmaps u hmem
    rw [List.foldl_cons, updatePositionsStep_eq]
    rcases hdec : ((acc.1.setTrade (acc.1.updateOneTrade cp atr a)).exitDecision
        cp high low (acc.1.updateOneTrade cp atr a)) with _ | re
    · have hrest := ih (acc.1.setTrade (acc.1.updateOneTrade cp atr a), acc.2)
        hndtail
        (fun t ht => hmem0 t (List.mem_cons_of_mem a ht))
        (by
          intro t ht
          show t.id ∈ (acc.1.setTrade (acc.1.updateOneTrade cp atr a)).positions.map Trade.id
          rw [hidsB]
          exact hmemA t (List.mem_cons_of_mem a ht))
        hmapsB hinvB
        (by
          intro sig name
          rw [hcntB]
          exact hcnt sig name)
      obtain ⟨hI, hC, hE, hM⟩ := hrest
      exact ⟨hI, hC, hE.trans rfl, hM.trans rfl⟩
    · have hre : re.1 ≠ "" :=
        exitDecision_reason _ cp high low _ re hdec
      have ht2idB : (acc.1.updateOneTrade cp atr a).id
          ∈ (acc.1.setTrade (acc.1.updateOneTrade cp atr a)).positions.map Trade.id := by
        rw [hidsB]
        exact ht2idA
      have hkeyB : ∀ u ∈ (acc.1.setTrade (acc.1.updateOneTrade cp atr a)).positions,
          u.id = (acc.1.updateOneTrade cp atr a).id →
          u.signal = (acc.1.updateOneTrade cp atr a).signal ∧
          u.strategy = (acc.1.updateOneTrade cp atr a).strategy := by
        intro u hu huid
        obtain ⟨w, hw0, hwid, hwsig, hwstr⟩ := hmapsB u hu
        have hwa : w = a := by
          refine List.inj_on_of_nodup_map hnd0 hw0 ha0 ?_
          rw [← hwid, huid, hkey.1]
        subst hwa
        rw [hkey.2.1, hkey.2.2.1]
        exact ⟨hwsig, hwstr⟩
      have hinvC : RmInv ((acc.1.setTrade (acc.1.updateOneTrade cp atr a)).force_exit
          (acc.1.updateOneTrade cp atr a) date re.2 re.1).2 :=
        force_exit_RmInv _ _ date re.2 re.1 hinvB ht2idB hre
      have hidsC : ((acc.1.setTrade (acc.1.updateOneTrade cp atr a)).force_exit
          (acc.1.updateOneTrade cp atr a) date re.2 re.1).2.positions.map Trade.id
          = (acc.1.positions.map Trade.id).eraseP
              (fun m => m = (acc.1.updateOneTrade cp atr a).id) := by
        rw [force_exit_map_id _ _ date re.2 re.1 ht2idB, hidsB]
      have hrest := ih (((acc.1.setTrade (acc.1.updateOneTrade cp atr a)).force_exit
          (acc.1.updateOneTrade cp atr a) date re.2 re.1).2,
          acc.2 ++ [((acc.1.setTrade (acc.1.updateOneTrade cp atr a)).force_exit
            (acc.1.updateOneTrade cp atr a) date re.2 re.1).1])
        hndtail
        (fun t ht => hmem0 t (List.mem_cons_of_mem a ht))
        (by
          intro t ht
          show t.id ∈ ((acc.1.setTrade (acc.1.updateOneTrade cp atr a)).force_exit
            (acc.1.updateOneTrade cp atr a) date re.2 re.1).2.positions.map Trade.id
          rw [hidsC]
          refine mem_eraseP_of_ne (hmemA t (List.mem_cons_of_mem a ht)) ?_
          rw [hkey.1]
          intro hteq
          exact hanotin (hteq ▸ List.mem_map_of_mem Trade.id ht)
        )
        (by
          intro u hu
          rcases force_exit_mem _ _ date re.2 re.1 u hu with rfl | hmem
          · exact ⟨a, ha0, hkey.1, hkey.2.1, hkey.2.2.1⟩
          · exact hmapsB u hmem)
        hinvC
        (by
          intro sig name
          refine le_trans (force_exit_countSame _ _ date re.2 re.1 hkeyB sig name) ?_
          rw [hcntB]
          exact hcnt sig name)
      obtain ⟨hI, hC, hE, hM⟩ := hrest
      exact ⟨hI, hC, hE.trans rfl, hM.trans rfl⟩

/-- `update_positions` preserves the engine invariant. -/
theorem update_positions_EngineInv (cfg : RiskConfig) (rm : RiskManager)
    (date : ℕ) (cp atr high low : ℚ) (h : EngineInv cfg rm) :
    EngineInv cfg (rm.update_positions date cp atr high low).1 := by
  obtain ⟨⟨hinv, hcnt⟩, hfe, hfm⟩ := h
  have hnd0 : (rm.positions.map Trade.id).Nodup := by
    have hh := hinv.1
    unfold allIds at hh
    rw [List.map_append] at hh
    exact hh.of_append_left
  have hmain := updatePositionsFold_inv date cp atr high low rm hnd0
    rm.positions (rm, []) hnd0 (fun t ht => ht)
    (fun t ht => List.mem_map_of_mem Trade.id ht)
    (fun u hu => ⟨u, hu, rfl, rfl, rfl⟩) hinv (fun sig name => le_rfl)
  obtain ⟨hI, hC, hE, hM⟩ := hmain
  refine ⟨⟨hI, ?_⟩, hE.trans hfe, hM.trans hfm⟩
  intro sig name
  calc countSame (rm.update_positions date cp atr high low).1.positions sig name
      ≤ countSame rm.positions sig name := hC sig name
    _ ≤ pyramidBound rm := hcnt sig name
    _ = pyramidBound (rm.update_positions date cp atr high low).1 :=
        (pyramidBound_congr _ rm hE hM).symm

/-- Invariant preservation along the per-trade loop of the trend-break
pass: force-exiting trades of one strategy keeps the bookkeeping
invariant and never increases any direction/strategy count. -/
theorem trendBreakFold_inv (i : ℕ) (row : Bar) (name : String)
    (rm0 : RiskManager) (hnd0 : (rm0.positions.map Trade.id).Nodup) :
    ∀ (todo : List Trade) (acc : BacktestEngine × List Trade),
      (todo.map Trade.id).Nodup →
      (∀ t ∈ todo, t ∈ rm0.positions) →
      (∀ t ∈ todo, t.id ∈ acc.1.risk_manager.positions.map Trade.id) →
      (∀ u ∈ acc.1.risk_manager.positions, ∃ w, w ∈ rm0.positions ∧
          u.id = w.id ∧ u.signal = w.signal ∧ u.strategy = w.strategy) →
      RmInv acc.1.risk_manager →
      (∀ sig nm, countSame acc.1.risk_manager.positions sig nm
          ≤ countSame rm0.positions sig nm) →
      RmInv (todo.foldl
        (BacktestEngine.trendBreakStep i row name) acc).1.risk_manager ∧
      (∀ sig nm, countSame (todo.foldl
          (BacktestEngine.trendBreakStep i row name) acc).1.risk_manager.positions
          sig nm ≤ countSame rm0.positions sig nm) ∧
      (todo.foldl
        (BacktestEngine.trendBreakStep i row name) acc).1.risk_manager.pyramid_enabled
        = acc.1.risk_manager.pyramid_enabled ∧
      (todo.foldl
        (BacktestEngine.trendBreakStep i row name) acc).1.risk_manager.pyramid_max_adds
        = acc.1.risk_manager.pyramid_max_adds := by
  intro todo
  induction todo with
  | nil =>
    intro acc _ _ _ _ hinv hcnt
    exact ⟨hinv, hcnt, rfl, rfl⟩
  | cons a todo ih =>
    intro acc hnd hmem0 hmemA hmaps hinv hcnt
    have ha0 : a ∈ rm0.positions := hmem0 a (List.mem_cons_self a todo)
    have haidA : a.id ∈ acc.1.risk_manager.positions.map Trade.id :=
      hmemA a (List.mem_cons_self a todo)
    rw [List.map_cons] at hnd
    have hndtail : (todo.map Trade.id).Nodup := hnd.of_cons
    have hanotin : a.id ∉ todo.map Trade.id := (List.nodup_cons.mp hnd).1
    rw [List.foldl_cons]
    by_cases hstr : a.strategy = name
    · have hstep : BacktestEngine.trendBreakStep i row name acc a
          = ({ acc.1 with risk_manager :=
                (acc.1.risk_manager.force_exit a i row.close "trend_break").2 },
             acc.2 ++ [(acc.1.risk_manager.force_exit a i row.close "trend_break").1]) := by
        unfold BacktestEngine.trendBreakStep
        rw [if_pos hstr]
      rw [hstep]
      have hkeyA : ∀ u ∈ acc.1.risk_manager.positions, u.id = a.id →
          u.signal = a.signal ∧ u.strategy = a.strategy := by
        intro u hu huid
        obtain ⟨w, hw0, hwid, hwsig, hwstr⟩ := hmaps u hu
        have hwa : w = a := by
          refine List.inj_on_of_nodup_map hnd0 hw0 ha0 ?_
          rw [← hwid, huid]
        subst hwa
        exact ⟨hwsig, hwstr⟩
      have hinvC : RmInv (acc.1.risk_manager.force_exit a i row.close "trend_break").2 :=
        force_exit_RmInv _ _ i row.close "trend_break" hinv haidA (by decide)
      have hidsC : (acc.1.risk_manager.force_exit a i row.close "trend_break").2.positions.map
          Trade.id = (acc.1.risk_manager.positions.map Trade.id).eraseP
            (fun m => m = a.id) :=
        force_exit_map_id _ _ i row.close "trend_break" haidA
      have hrest := ih ({ acc.1 with risk_manager :=
            (acc.1.risk_manager.force_exit a i row.close "trend_break").2 },
          acc.2 ++ [(acc.1.risk_manager.force_exit a i row.close "trend_break").1])
        hndtail
        (fun t ht => hmem0 t (List.mem_cons_of_mem a ht))
        (by
          intro t ht
          show t.id ∈ (acc.1.risk_manager.force_exit a i row.close
            "trend_break").2.positions.map Trade.id
          rw [hidsC]
          refine mem_eraseP_of_ne (hmemA t (List.mem_cons_of_mem a ht)) ?_
          intro hteq
          exact hanotin (hteq ▸ List.mem_map_of_mem Trade.id ht))
        (by
          intro u hu
          rcases force_exit_mem _ _ i row.close "trend_break" u hu with rfl | hmem
          · exact ⟨a, ha0, rfl, rfl, rfl⟩
          · exact hmaps u hmem)
        hinvC
        (fun sig nm => le_trans
          (force_exit_countSame _ _ i row.close "trend_break" hkeyA sig nm)
          (hcnt sig nm))
      obtain ⟨hI, hC, hE, hM⟩ := hrest
      exact ⟨hI, hC, hE.trans rfl, hM.trans rfl⟩
    · have hstep : BacktestEngine.trendBreakStep i row name acc a = acc := by
        unfold BacktestEngine.trendBreakStep
        rw [if_neg hstr]
      rw [hstep]
      exact ih acc hndtail (fun t ht => hmem0 t (List.mem_cons_of_mem a ht))
        (fun t ht => hmemA t (List.mem_cons_of_mem a ht)) hmaps hinv hcnt

/-- One strategy's trend-break pass preserves the engine invariant. -/
theorem trendBreakExits_inv (cfg : RiskConfig) (i : ℕ) (row : Bar)
    (acc : BacktestEngine × List Trade) (strat : StratSpec)
    (h : EngineInv cfg acc.1.risk_manager) :
    EngineInv cfg (BacktestEngine.trendBreakExits i row acc strat).1.risk_manager := by
  obtain ⟨⟨hinv, hcnt⟩, hfe, hfm⟩ := h
  simp only [BacktestEngine.trendBreakExits]
  split_ifs with hc
  · have hnd0 : (acc.1.risk_manager.positions.map Trade.id).Nodup := by
      have hh := hinv.1
      unfold allIds at hh
      rw [List.map_append] at hh
      exact hh.of_append_left
    have hmain := trendBreakFold_inv i row strat.name acc.1.risk_manager hnd0
      acc.1.risk_manager.positions acc hnd0 (fun t ht => ht)
      (fun t ht => List.mem_map_of_mem Trade.id ht)
      (fun u hu => ⟨u, hu, rfl, rfl, rfl⟩) hinv (fun sig nm => le_rfl)
    obtain ⟨hI, hC, hE, hM⟩ := hmain
    refine ⟨⟨hI, ?_⟩, hE.trans hfe, hM.trans hfm⟩
    intro sig nm
    refine le_trans (hC sig nm) (le_of_le_of_eq (hcnt sig nm) ?_)
    exact (pyramidBound_congr _ acc.1.risk_manager hE hM).symm
  · exact ⟨⟨hinv, hcnt⟩, hfe, hfm⟩

/-- The whole trend-break pass over all strategies preserves the
engine invariant. -/
theorem trendBreakExitsFold_inv (cfg : RiskConfig) (i : ℕ) (row : Bar)
    (l : List StratSpec) (acc : BacktestEngine × List Trade)
    (h : EngineInv cfg acc.1.risk_manager) :
    EngineInv cfg
      ((l.foldl (BacktestEngine.trendBreakExits i row) acc).1.risk_manager) :=
  List.foldlRecOn l _ acc h
    (fun acc hacc strat _ => trendBreakExits_inv cfg i row acc strat hacc)

/-- A successful `enter_trade` (with any subsequent `pyramid_trigger`
tagging) preserves the engine invariant, provided the direction and
strategy of the new trade have room under the pyramid bound. -/
theorem enter_setTrade_EngineInv (cfg : RiskConfig) (rm : RiskManager)
    (date : ℕ) (price : ℚ) (signal : ℤ) (atr : ℚ) (shares : ℤ)
    (name : String) (sm tm : Option ℚ) (ipy : Bool)
    (h : EngineInv cfg rm)
    (hcase : countSame rm.positions signal name + 1 ≤ pyramidBound rm) :
    EngineInv cfg (rm.enterResult date price signal atr shares name sm tm ipy).2 ∧
    ∀ thr : ℚ,
      EngineInv cfg
        ((rm.enterResult date price signal atr shares name sm tm ipy).2.setTrade
          { (rm.enterResult date price signal atr shares name sm tm ipy).1 with
              pyramid_trigger := some thr }) := by
  obtain ⟨⟨hinv, hcnt⟩, hfe, hfm⟩ := h
  have hRm' : RmInv (rm.enterResult date price signal atr shares name sm tm ipy).2 :=
    RmInv_of_append_fresh rm _
      (rm.enterResult date price signal atr shares name sm tm ipy).1
      rfl rfl rfl rfl ⟨hinv.1, hinv.2.1, hinv.2.2⟩
  have hT1 : (rm.enterResult date price signal atr shares name sm tm ipy).1.signal
      = signal := rfl
  have hT2 : (rm.enterResult date price signal atr shares name sm tm ipy).1.strategy
      = name := rfl
  have hcnt' : ∀ sig nm,
      countSame (rm.enterResult date price signal atr shares name sm tm ipy).2.positions
        sig nm ≤ pyramidBound rm := by
    intro sig nm
    show countSame (rm.positions ++
      [(rm.enterResult date price signal atr shares name sm tm ipy).1]) sig nm
      ≤ pyramidBound rm
    rw [countSame_append_single]
    by_cases hm :
        (rm.enterResult date price signal atr shares name sm tm ipy).1.signal = sig ∧
        (rm.enterResult date price signal atr shares name sm tm ipy).1.strategy = nm
    · rw [if_pos hm]
      obtain ⟨hm1, hm2⟩ := hm
      rw [hT1] at hm1
      rw [hT2] at hm2
      subst hm1
      subst hm2
      exact hcase
    · rw [if_neg hm]
      have := hcnt sig nm
      omega
  refine ⟨⟨⟨hRm', fun sig nm => hcnt' sig nm⟩, hfe, hfm⟩, ?_⟩
  intro thr
  have hkeyX : ∀ u ∈ (rm.enterResult date price signal atr shares name sm tm ipy).2.positions,
      u.id = ({ (rm.enterResult date price signal atr shares name sm tm ipy).1 with
          pyramid_trigger := some thr } : Trade).id →
      u.signal = ({ (rm.enterResult date price signal atr shares name sm tm ipy).1 with
          pyramid_trigger := some thr } : Trade).signal ∧
      u.strategy = ({ (rm.enterResult date price signal atr shares name sm tm ipy).1 with
          pyramid_trigger := some thr } : Trade).strategy := by
    intro u hu huid
    have hu' : u ∈ rm.positions ++
        [(rm.enterResult date price signal atr shares name sm tm ipy).1] := hu
    rcases List.mem_append.mp hu' with hup | hut
    · have hb := hinv.2.1 u (List.mem_append.mpr (Or.inl hup))
      have hid2 : u.id = rm.next_id := huid
      omega
    · rcases List.mem_singleton.mp hut with rfl
      exact ⟨rfl, rfl⟩
  refine ⟨⟨?_, ?_⟩, hfe, hfm⟩
  · have hmemT : (rm.enterResult date price signal atr shares name sm tm ipy).1
        ∈ (rm.enterResult date price signal atr shares name sm tm ipy).2.positions :=
      List.mem_append_right _ (List.mem_singleton_self _)
    have hmapT : (rm.enterResult date price signal atr shares name sm tm ipy).1.id
        ∈ (rm.enterResult date price signal atr shares name sm tm ipy).2.positions.map
          Trade.id :=
      List.mem_map_of_mem Trade.id hmemT
    refine setTrade_RmInv _ _ ?_ hRm'
    exact hmapT
  · intro sig nm
    rw [setTrade_countSame _ _ hkeyX]
    exact hcnt' sig nm

/-- The signal-to-entry body of the bar loop preserves the engine
invariant: an entry is only admitted either as the first trade of its
direction and strategy or through a successful `can_pyramid` check,
and both cases stay under the pyramid bound. -/
theorem processStrategySignal_inv (cfg : RiskConfig) (params : EngineParams)
    (bars : List Bar) (i : ℕ) (row : Bar) (e : BacktestEngine)
    (strat : StratSpec) (h : EngineInv cfg e.risk_manager) :
    EngineInv cfg
      (BacktestEngine.processStrategySignal params bars i row e strat).risk_manager := by
  simp only [BacktestEngine.processStrategySignal]
  by_cases hsig : strat.sig i = 0
  · rw [if_pos hsig]
    exact h
  · rw [if_neg hsig]
    split
    · exact h
    · rename_i ip hpyr
      have hbound : countSame e.risk_manager.positions (strat.sig i) strat.name + 1
          ≤ pyramidBound e.risk_manager := by
        split_ifs at hpyr with hfil
        · split at hpyr
          · rename_i pc heqcp
            obtain ⟨hen, hge1, hlt, _, _⟩ :=
              can_pyramid_spec e.risk_manager (strat.sig i) strat.name pc.1 pc.2
                (by rw [Prod.mk.eta]; exact heqcp)
            unfold pyramidBound
            rw [if_pos hen]
            omega
          · cases hpyr
        · have hfil' := not_not.mp hfil
          have hc : countSame e.risk_manager.positions (strat.sig i) strat.name = 0 := by
            unfold countSame
            rw [hfil']
            rfl
          rw [hc]
          unfold pyramidBound
          split <;> omega
      by_cases hcan : e.risk_manager.can_enter_trade (strat.sig i) row.close row.atrD
          = true
      · rw [if_neg (not_not_intro hcan)]
        by_cases hip1 : ip.1 = true
        · rw [if_pos hip1]
          split
          · exact h
          · rw [enter_trade_eq]
            rw [can_enter_trade_irrel e.risk_manager (strat.sig i) _ _ row.close row.atrD]
            rw [if_pos hcan]
            rcases hip2 : ip.2 with _ | thr
            · exact (enter_setTrade_EngineInv cfg e.risk_manager i _
                (strat.sig i) row.atrD _ strat.name _ _ ip.1 h hbound).1
            · exact (enter_setTrade_EngineInv cfg e.risk_manager i _
                (strat.sig i) row.atrD _ strat.name _ _ ip.1 h hbound).2 thr
        · rw [if_neg hip1]
          split
          · exact h
          · rw [enter_trade_eq]
            rw [can_enter_trade_irrel e.risk_manager (strat.sig i) _ _ row.close row.atrD]
            rw [if_pos hcan]
            rcases hip2 : ip.2 with _ | thr
            · exact (enter_setTrade_EngineInv cfg e.risk_manager i _
                (strat.sig i) row.atrD _ strat.name _ _ ip.1 h hbound).1
            · exact (enter_setTrade_EngineInv cfg e.risk_manager i _
                (strat.sig i) row.atrD _ strat.name _ _ ip.1 h hbound).2 thr
      · rw [if_pos hcan]
        exact h

theorem signalFold_inv (cfg : RiskConfig) (params : EngineParams)
    (bars : List Bar) (i : ℕ) (row : Bar) (l : List StratSpec)
    (e : BacktestEngine) (h : EngineInv cfg e.risk_manager) :
    EngineInv cfg
      ((l.foldl (BacktestEngine.processStrategySignal params bars i row) e).risk_manager) :=
  List.foldlRecOn l _ e h
    (fun e he strat _ => processStrategySignal_inv cfg params bars i row e strat he)

/-- Everything a bar does before the equity mark preserves the engine
invariant. -/
theorem barCore_inv (cfg : RiskConfig) (params : EngineParams)
    (bars : List Bar) (e : BacktestEngine) (i : ℕ) (row : Bar)
    (h : EngineInv cfg e.risk_manager) :
    EngineInv cfg (BacktestEngine.barCore params bars e i row).risk_manager := by
  simp only [BacktestEngine.barCore]
  refine signalFold_inv cfg params bars i row _ _ ?_
  rw [logFold_rm]
  refine trendBreakExitsFold_inv cfg i row _ _ ?_
  exact update_positions_EngineInv cfg e.risk_manager i row.close row.atrD
    row.high row.low h

/-- A full bar iteration (core pass, equity mark, daily rollover)
preserves the engine invariant. -/
theorem barStep_inv (cfg : RiskConfig) (params : EngineParams)
    (bars : List Bar) (e : BacktestEngine) (i : ℕ) (row : Bar)
    (h : EngineInv cfg e.risk_manager) :
    EngineInv cfg (BacktestEngine.barStep params bars e i row).risk_manager := by
  have hc := barCore_inv cfg params bars e i row h
  simp only [BacktestEngine.barStep]
  split
  · obtain ⟨h1, h2, h3, h4, h5⟩ := reset_daily_fields
      (BacktestEngine.barCore params bars e i row).risk_manager row.day
    exact EngineInv_congr cfg _ _ h1 h2 h3 h4 h5 hc
  · split
    · split
      · obtain ⟨h1, h2, h3, h4, h5⟩ := reset_daily_fields
          (BacktestEngine.barCore params bars e i row).risk_manager row.day
        exact EngineInv_congr cfg _ _ h1 h2 h3 h4 h5 hc
      · exact hc
    · exact hc

/-- The bar loop maintains the engine invariant from the fresh manager
onward, for every prefix length. -/
theorem runPrefix_inv (cfg : RiskConfig) (c1 c2 c3 : ℚ)
    (params : EngineParams) (bars : List Bar) (k : ℕ) :
    EngineInv cfg
      (BacktestEngine.runPrefix cfg c1 c2 c3 params bars k).risk_manager := by
  unfold BacktestEngine.runPrefix
  refine List.foldlRecOn
    (motive := fun e : BacktestEngine => EngineInv cfg e.risk_manager) _ _ _ ?_ ?_
  · exact init_EngineInv cfg
  · intro e he p _
    dsimp only
    split
    · exact he
    · exact barStep_inv cfg params bars e p.1 p.2 he

/-- C4 (amended): after any number of processed bars no trade id is
shared between the open and closed lists, and every closed trade
carries a nonempty exit reason and an exit price; the trades
liquidated by the end-of-simulation block only get their exit fields
set — they remain in the open-position list (now marked
`end_of_backtest`) and are never appended to the closed-trade list,
which the liquidation leaves exactly as the bar loop left it. -/
theorem C4_amended (cfg : RiskConfig) (c1 c2 c3 : ℚ) (params : EngineParams)
    (bars : List Bar) (k : ℕ) :
    (allIds (BacktestEngine.runPrefix cfg c1 c2 c3 params bars k).risk_manager).Nodup ∧
    (∀ t ∈ (BacktestEngine.runPrefix cfg c1 c2 c3 params bars k).risk_manager.closed_trades,
      t.exit_reason ≠ "" ∧ t.exit_price ≠ none) ∧
    (∀ t ∈ (BacktestEngine.run cfg c1 c2 c3 params bars).risk_manager.positions,
      t.exit_reason = "end_of_backtest") ∧
    (BacktestEngine.run cfg c1 c2 c3 params bars).risk_manager.closed_trades
      = (BacktestEngine.runPrefix cfg c1 c2 c3 params bars
          bars.length).risk_manager.closed_trades := by
  have hP := runPrefix_inv cfg c1 c2 c3 params bars k
  refine ⟨hP.1.1.1, hP.1.1.2.2, ?_, ?_⟩
  · rcases hb : bars.getLast? with _ | lastRow
    · have hnil : bars = [] := List.getLast?_eq_none_iff.mp hb
      subst hnil
      intro t ht
      have hz : (BacktestEngine.run cfg c1 c2 c3 params []).risk_manager.positions
          = [] := rfl
      rw [hz] at ht
      cases ht
    · have hrun : BacktestEngine.run cfg c1 c2 c3 params bars
          = (BacktestEngine.runPrefix cfg c1 c2 c3 params bars
              bars.length).risk_manager.positions.foldl
              (BacktestEngine.endStep (bars.length - 1) lastRow.close)
              (BacktestEngine.runPrefix cfg c1 c2 c3 params bars bars.length) := by
        unfold BacktestEngine.run BacktestEngine.endOfBacktest
        rw [hb]
      rw [hrun]
      exact endFold_reason (bars.length - 1) lastRow.close _ _
        (fun u hu hnin => absurd (List.mem_map_of_mem Trade.id hu) hnin)
  · rcases hb : bars.getLast? with _ | lastRow
    · have hnil : bars = [] := List.getLast?_eq_none_iff.mp hb
      subst hnil
      rfl
    · have hrun : BacktestEngine.run cfg c1 c2 c3 params bars
          = (BacktestEngine.runPrefix cfg c1 c2 c3 params bars
              bars.length).risk_manager.positions.foldl
              (BacktestEngine.endStep (bars.length - 1) lastRow.close)
              (BacktestEngine.runPrefix cfg c1 c2 c3 params bars bars.length) := by
        unfold BacktestEngine.run BacktestEngine.endOfBacktest
        rw [hb]
      rw [hrun]
      exact endFold_closed (bars.length - 1) lastRow.close _ _

/-- C4 witness: in the concrete run `esC4` the liquidated trade stays
in the open list, marked `end_of_backtest`, and the closed list stays
empty. -/
theorem C4_witness :
    (BacktestEngine.run {} 0 0 0 paramsC4 barsC4).risk_manager.closed_trades
      = (BacktestEngine.runPrefix {} 0 0 0 paramsC4 barsC4
          barsC4.length).risk_manager.closed_trades ∧
    esC4.risk_manager.positions.all
      (fun t => decide (t.exit_reason = "end_of_backtest")) = true ∧
    esC4.risk_manager.positions.length = 1 ∧
    esC4.risk_manager.closed_trades.length = 0 := by
  refine ⟨(C4_amended {} 0 0 0 paramsC4 barsC4 0).2.2.2, by decide, by decide,
    by decide⟩

/-- C8 (amended): after any number of processed bars the number of
concurrent open trades sharing a direction and strategy never exceeds
`pyramid_max_adds + 1` — one base trade plus at most
`pyramid_max_adds` adds, 1 with pyramiding disabled — and a pyramid
add is only permitted when pyramiding is enabled, the add count is
below `pyramid_max_adds`, and the base trade's R-multiple has reached
the selected threshold (taken from the ordered threshold list, its
last entry reused when the list is shorter, or the default
`1.5 * (addCount + 1)` when it is empty). -/
theorem C8_amended :
    (∀ (cfg : RiskConfig) (c1 c2 c3 : ℚ) (params : EngineParams)
        (bars : List Bar) (k : ℕ) (sig : ℤ) (name : String),
      countSame
          (BacktestEngine.runPrefix cfg c1 c2 c3 params bars k).risk_manager.positions
          sig name
        ≤ (if cfg.pyramid_enabled then cfg.pyramid_max_adds + 1 else 1)) ∧
    (∀ (rm : RiskManager) (sig : ℤ) (name : String) (t : Trade) (thr : ℚ),
      rm.can_pyramid sig name = some (t, thr) →
      rm.pyramid_enabled = true ∧
      1 ≤ countSame rm.positions sig name ∧
      countSame rm.positions sig name - 1 < rm.pyramid_max_adds ∧
      thr = (if rm.pyramid_add_thresholds ≠ [] then
          rm.pyramid_add_thresholds.getD
            (min (countSame rm.positions sig name - 1)
              (rm.pyramid_add_thresholds.length - 1)) 0
        else (3/2) * ((countSame rm.positions sig name - 1 : ℕ) + 1)) ∧
      t.current_r_multiple ≥ thr) := by
  constructor
  · intro cfg c1 c2 c3 params bars k sig name
    have h := runPrefix_inv cfg c1 c2 c3 params bars k
    have hcnt := h.1.2 sig name
    have hb : pyramidBound
        (BacktestEngine.runPrefix cfg c1 c2 c3 params bars k).risk_manager
        = (if cfg.pyramid_enabled then cfg.pyramid_max_adds + 1 else 1) := by
      unfold pyramidBound
      rw [h.2.1, h.2.2]
    rw [hb] at hcnt
    exact hcnt
  · exact fun rm sig name t thr h => can_pyramid_spec rm sig name t thr h

/-- C8 witness: the pyramid scenario `esC8` stays at the bound
(2 = `pyramid_max_adds` + 1 concurrent same-direction trades), and the
concrete manager `rmC8w` passes `can_pyramid` with an add count of 0
below the maximum of 1. -/
theorem C8_witness :
    countSame (BacktestEngine.runPrefix cfgC8 0 0 0 paramsC8
        barsC8 52).risk_manager.positions 1 "S" ≤ 2 ∧
    rmC8w.pyramid_enabled = true ∧
    1 ≤ countSame rmC8w.positions 1 "S" ∧
    countSame rmC8w.positions 1 "S" - 1 < rmC8w.pyramid_max_adds := by
  have h1 := C8_amended.1 cfgC8 0 0 0 paramsC8 barsC8 52 1 "S"
  have he : (if cfgC8.pyramid_enabled then cfgC8.pyramid_max_adds + 1 else 1)
      = 2 := by decide
  rw [he] at h1
  have h2 := C8_amended.2 rmC8w 1 "S" tC8w 1 (by decide)
  exact ⟨h1, h2.1, h2.2.1, h2.2.2.1⟩
